import Mathlib

/-!
Verification of the thoughtful.ai support-agent core (backend services) against
its natural-language specification.  The JavaScript services are shallowly
embedded: JS strings become `String`/`List Char`, JS numbers become `ℚ`
(exact arithmetic; `Math.sqrt` is an oracle parameter), fallible code returns
`Except String`, and external collaborators (OpenAI embedding / completion,
page fetching, the htmlparser2 tokenizer) are oracle parameters or event
streams supplied to the embedded code.
-/

-- The Batteries rational-number operations are `@[irreducible]`; witnesses
-- evaluate concrete runs of the embedded code with `decide`, which needs them
-- to unfold.
set_option allowUnsafeReducibility true in
attribute [semireducible] Rat.add Rat.mul Rat.inv Rat.sub Rat.ofScientific

deriving instance DecidableEq for Except

set_option autoImplicit false

/-! ### Character classes used by the JS runtime primitives

`isJsWs` models the JavaScript `\s` class / `String.prototype.trim`
whitespace for the ASCII range (space, tab, LF, VT, FF, CR). -/

def isJsWs (c : Char) : Bool :=
  c = ' ' || c = '\t' || c = '\n' || c = '\r' || c = Char.ofNat 11 || c = Char.ofNat 12

/-- Sentence-terminal punctuation of the chunker regex `/(?<=[.!?])\s+/`
(`ragService.js` line 81). -/
def isSentTerm (c : Char) : Bool :=
  c = '.' || c = '!' || c = '?'

/-- The effect of `l.trim()` on the front of a char list. -/
def trimLeftL (l : List Char) : List Char :=
  l.dropWhile isJsWs

/-- The effect of `l.trim()` on the back of a char list. -/
def trimRightL (l : List Char) : List Char :=
  (l.reverse.dropWhile isJsWs).reverse

/-- JavaScript `String.prototype.trim` on a char list. -/
def jsTrimL (l : List Char) : List Char :=
  trimRightL (trimLeftL l)

/-- JavaScript `String.prototype.trim`. -/
def jsTrim (s : String) : String :=
  ⟨jsTrimL s.data⟩

/-- JavaScript `String.prototype.toLowerCase` (ASCII range). -/
def jsToLower (s : String) : String :=
  ⟨s.data.map Char.toLower⟩

/-! ### `chunkText` (backend/src/services/ragService.js, lines 80-101)

`text.split(/(?<=[.!?])\s+/)`: the splitter walks the characters carrying the
current sentence in reverse; `none` means the previous characters belonged to a
maximal whitespace run that followed sentence-terminal punctuation (the `\s+`
match being consumed).  A split happens exactly at a whitespace character whose
immediate predecessor is `.`, `!` or `?`, and consumes the whole run; as in JS,
a separator match at the very end of the input yields a trailing empty
sentence. -/

/-- The split-point test of `/(?<=[.!?])\s+/`: the current character is
whitespace and the lookbehind (the last accumulated character) is
sentence-terminal punctuation. -/
def sentSplitHere (c : Char) (acc : List Char) : Bool :=
  isJsWs c && (match acc with | p :: _ => isSentTerm p | [] => false)

def splitSentencesAux : List Char → Option (List Char) → List (List Char)
  | [], none => [[]]
  | [], some acc => [acc.reverse]
  | c :: cs, none =>
      if isJsWs c then splitSentencesAux cs none
      else splitSentencesAux cs (some [c])
  | c :: cs, some acc =>
      if sentSplitHere c acc then
        acc.reverse :: splitSentencesAux cs none
      else
        splitSentencesAux cs (some (c :: acc))

/-- The split `text.split(/(?<=[.!?])\s+/)` of `ragService.js` line 81. -/
def splitSentences (text : String) : List String :=
  (splitSentencesAux text.data (some [])).map fun l => ⟨l⟩

/-- JavaScript `str.split(' ')`: splits at every single space character,
keeping empty pieces (`ragService.js` line 89). -/
def splitOnSpaceL : List Char → List (List Char)
  | [] => [[]]
  | c :: cs =>
      match splitOnSpaceL cs with
      | [] => [[]]
      | w :: ws => if c = ' ' then [] :: w :: ws else (c :: w) :: ws

/-- JavaScript `words.slice(-n)`.  Mirrors the JS quirk that `slice(-0)`
is `slice(0)`, i.e. the whole array (`ragService.js` line 90 computes
`words.slice(-Math.floor(overlap / 10))`). -/
def sliceLast (n : Nat) (xs : List (List Char)) : List (List Char) :=
  if n = 0 then xs else xs.drop (xs.length - n)

/-- JavaScript `words.join(' ')`. -/
def joinSpaceL (ws : List (List Char)) : List Char :=
  List.intercalate [' '] ws

/-- The sentence-accumulation loop of `chunkText` (`ragService.js` lines
82-98), including the final `if (currentChunk.trim()) chunks.push(...)`. -/
def chunkLoop (maxChunkSize overlap : Nat) :
    List (List Char) → List Char → List (List Char) → List (List Char)
  | [], currentChunk, chunks =>
      if jsTrimL currentChunk = [] then chunks else chunks ++ [jsTrimL currentChunk]
  | sentence :: rest, currentChunk, chunks =>
      if decide ((currentChunk ++ sentence).length > maxChunkSize)
          && decide (currentChunk.length > 0) then
        chunkLoop maxChunkSize overlap rest
          (joinSpaceL (sliceLast (overlap / 10) (splitOnSpaceL currentChunk)) ++ ' ' :: sentence)
          (chunks ++ [jsTrimL currentChunk])
      else
        chunkLoop maxChunkSize overlap rest
          (currentChunk ++ (if currentChunk.isEmpty then [] else [' ']) ++ sentence)
          chunks

/-- The function `chunkText(text, maxChunkSize, overlap)` of `ragService.js` lines 80-101
(the JS defaults are `maxChunkSize = 500`, `overlap = 50`). -/
def chunkText (text : String) (maxChunkSize overlap : Nat) : List String :=
  (chunkLoop maxChunkSize overlap (splitSentencesAux text.data (some [])) [] []).map fun l => ⟨l⟩

/-! ### `cosineSimilarity` (ragService.js, lines 53-71)

JS numbers are modelled by `ℚ`; the runtime primitive `Math.sqrt` is an
oracle parameter `ratSqrt` (its defining property is assumed where a theorem
needs it). -/

/-- The `normA`/`normB` accumulation of the loop in `cosineSimilarity`
(sum of squares). -/
def normSq (v : List ℚ) : ℚ :=
  v.foldl (fun acc x => acc + x * x) 0

/-- The `dotProduct` accumulation of the loop in `cosineSimilarity`. -/
def dotProd (a b : List ℚ) : ℚ :=
  (a.zip b).foldl (fun acc p => acc + p.1 * p.2) 0

/-- The function `cosineSimilarity(vecA, vecB)` of `ragService.js` lines 53-71. -/
def cosineSimilarity (ratSqrt : ℚ → ℚ) (vecA vecB : List ℚ) : Except String ℚ :=
  if vecA.length ≠ vecB.length then
    Except.error "Vectors must have the same length"
  else if normSq vecA = 0 ∨ normSq vecB = 0 then
    Except.ok 0
  else
    Except.ok (dotProd vecA vecB / (ratSqrt (normSq vecA) * ratSqrt (normSq vecB)))

/-! ### The vector store and `searchDocuments` (ragService.js, lines 8-14 and 174-200) -/

structure DocMetadata where
  pageName : String
  url : String
  scrapedAt : String
deriving DecidableEq

structure RagDocument where
  id : String
  text : String
  metadata : DocMetadata
deriving DecidableEq

structure VectorStore where
  documents : List RagDocument
  embeddings : List (List ℚ)
  initialized : Bool
  lastUpdated : Option String
deriving DecidableEq

/-- A `{...doc, score}` record built by `searchDocuments`. -/
structure ScoredDocument where
  doc : RagDocument
  score : ℚ
deriving DecidableEq

/-- The comparator `(a, b) => b.score - a.score` of `ragService.js` line 191,
as the ordering it sorts into (descending score). -/
def scoreDesc (a b : ScoredDocument) : Prop :=
  b.score ≤ a.score

instance : DecidableRel scoreDesc :=
  fun a b => inferInstanceAs (Decidable (b.score ≤ a.score))

instance : IsTotal ScoredDocument scoreDesc :=
  ⟨fun a b => le_total b.score a.score⟩

instance : IsTrans ScoredDocument scoreDesc :=
  ⟨fun _ _ _ h1 h2 => le_trans h2 h1⟩

/-- The `vectorStore.documents.map((doc, index) => ({...doc, score:
cosineSimilarity(queryEmbedding, vectorStore.embeddings[index])}))` of
`ragService.js` lines 184-187; indexing past the end of `embeddings` gives
`undefined` and makes `cosineSimilarity` throw. -/
def scoreAgainstStore (ratSqrt : ℚ → ℚ) (queryEmbedding : List ℚ) :
    List RagDocument → List (List ℚ) → Except String (List ScoredDocument)
  | [], _ => Except.ok []
  | _ :: _, [] => Except.error "TypeError: undefined embedding"
  | d :: ds, e :: es =>
      match cosineSimilarity ratSqrt queryEmbedding e with
      | Except.error err => Except.error err
      | Except.ok s =>
          match scoreAgainstStore ratSqrt queryEmbedding ds es with
          | Except.error err => Except.error err
          | Except.ok rest => Except.ok (⟨d, s⟩ :: rest)

/-- The function `searchDocuments(query, topK)` of `ragService.js` lines 174-200.  The
embedding collaborator call `generateEmbedding(query)` is the oracle value
`embedQuery`; ES2019 `Array.prototype.sort` is stable and total, modelled by
`List.insertionSort`.  Errors thrown inside the `try` are re-thrown by the
`catch` (line 198), so they propagate. -/
def searchDocuments (ratSqrt : ℚ → ℚ) (embedQuery : Except String (List ℚ))
    (store : VectorStore) (topK : Nat) : Except String (List ScoredDocument) :=
  if !store.initialized || store.documents.length == 0 then
    Except.ok []
  else
    match embedQuery with
    | Except.error e => Except.error e
    | Except.ok queryEmbedding =>
        match scoreAgainstStore ratSqrt queryEmbedding store.documents store.embeddings with
        | Except.error e => Except.error e
        | Except.ok scored =>
            Except.ok ((((scored.insertionSort scoreDesc).take topK).filter
              (fun d => decide ((3 : ℚ)/10 < d.score))))

/-! ### The similarity matcher (agentService.js: `calculateSimilarity`,
`findBestMatch`) -/

/-- JS `\w` = `[A-Za-z0-9_]` (ASCII). -/
def isWordChar (c : Char) : Bool :=
  ('a' ≤ c && c ≤ 'z') || ('A' ≤ c && c ≤ 'Z') || ('0' ≤ c && c ≤ '9') || c = '_'

/-- JavaScript `str.split(/\s+/)`: splits on maximal whitespace runs; a run
at either end contributes an empty piece, exactly as in JS. -/
def splitWsRunsAux : List Char → Option (List Char) → List (List Char)
  | [], none => [[]]
  | [], some acc => [acc.reverse]
  | c :: cs, none =>
      if isJsWs c then splitWsRunsAux cs none else splitWsRunsAux cs (some [c])
  | c :: cs, some acc =>
      if isJsWs c then acc.reverse :: splitWsRunsAux cs none
      else splitWsRunsAux cs (some (c :: acc))

/-- JS `new Set(...)` member order: keep the first occurrence of each element. -/
def dedupFirst (seen : List String) : List String → List String
  | [] => []
  | w :: ws => if w ∈ seen then dedupFirst seen ws else w :: dedupFirst (w :: seen) ws

/-- The `normalize` arrow inside `calculateSimilarity` (`agentService.js`
line 12) followed by the `new Set(...)` of lines 14-15:
`str.toLowerCase().replace(/[^\w\s]/g, '').split(/\s+/).filter(word =>
word.length > 2)` as a duplicate-free word list. -/
def normalizeWords (s : String) : List String :=
  dedupFirst []
    (((splitWsRunsAux ((jsToLower s).data.filter fun c => isWordChar c || isJsWs c)
        (some [])).map fun l => (⟨l⟩ : String)).filter fun w => decide (2 < w.length))

/-- The function `calculateSimilarity(str1, str2)` of `agentService.js` lines 11-27
(Jaccard index of the two normalized word sets). -/
def calculateSimilarity (str1 str2 : String) : ℚ :=
  let words1 := normalizeWords str1
  let words2 := normalizeWords str2
  if words1.length = 0 ∨ words2.length = 0 then 0
  else
    let intersection := (words1.filter fun w => w ∈ words2).length
    let union := words1.length + words2.length - intersection
    (intersection : ℚ) / (union : ℚ)

/-- An entry of the predefined question/answer catalog
(`backend/src/data/predefinedResponses.js`, external data read by the
matcher). -/
structure QA where
  question : String
  answer : String
deriving DecidableEq

/-- A non-null return value of `findBestMatch`. -/
structure MatchResult where
  answer : String
  matchedQuestion : String
  confidence : ℚ
deriving DecidableEq

/-- The static keyword table of `findBestMatch` (`agentService.js` lines
41-55), in object-literal insertion order. -/
def keywords : List (String × Nat) :=
  [("eva", 0), ("eligibility", 0), ("verification", 0),
   ("cam", 1), ("claims", 1), ("processing", 1),
   ("phil", 2), ("payment", 2), ("posting", 2),
   ("agents", 3), ("thoughtful", 3),
   ("benefits", 4), ("advantages", 4)]

/-- The constant `SIMILARITY_THRESHOLD` of `agentService.js` line 35. -/
def similarityThreshold : ℚ := 3/10

/-- The keyword loop of `findBestMatch` (`agentService.js` lines 60-73).
`lowerQuery.includes(keyword)` is the substring test; an out-of-range
`questionIndex` would make JS read `.question` of `undefined` and throw,
modelled by `Except.error`. -/
def keywordPassLoop (catalog : List QA) (userQuery lowerQuery : String) :
    List (String × Nat) → Option MatchResult → ℚ → Except String (Option MatchResult × ℚ)
  | [], best, highestScore => Except.ok (best, highestScore)
  | kv :: rest, best, highestScore =>
      if kv.1.data <:+: lowerQuery.data then
        match catalog.get? kv.2 with
        | none => Except.error "TypeError: undefined catalog entry"
        | some question =>
            let similarity := calculateSimilarity userQuery question.question
            if highestScore < similarity then
              keywordPassLoop catalog userQuery lowerQuery rest
                (some ⟨question.answer, question.question, max similarity (1/2)⟩)
                (max similarity (1/2))
            else
              keywordPassLoop catalog userQuery lowerQuery rest best highestScore
      else
        keywordPassLoop catalog userQuery lowerQuery rest best highestScore

/-- The full-scan loop of `findBestMatch` (`agentService.js` lines 76-86). -/
def fullScanLoop (userQuery : String) :
    List QA → Option MatchResult → ℚ → Option MatchResult × ℚ
  | [], best, highestScore => (best, highestScore)
  | qa :: rest, best, highestScore =>
      let similarity := calculateSimilarity userQuery qa.question
      if highestScore < similarity then
        fullScanLoop userQuery rest (some ⟨qa.answer, qa.question, similarity⟩) similarity
      else
        fullScanLoop userQuery rest best highestScore

/-- The function `findBestMatch(userQuery)` of `agentService.js` lines 34-93, with the
catalog it reads (`predefinedResponses.questions`) as a parameter. -/
def findBestMatch (catalog : List QA) (userQuery : String) :
    Except String (Option MatchResult) :=
  match keywordPassLoop catalog userQuery (jsToLower userQuery) keywords none 0 with
  | Except.error e => Except.error e
  | Except.ok (best1, score1) =>
      let (best2, score2) := fullScanLoop userQuery catalog best1 score1
      if similarityThreshold ≤ score2 then Except.ok best2 else Except.ok none

/-! ### The response router (agentService.js: `getOpenAIResponseWithRAG`,
`getOpenAIResponse`, `getAgentResponse`)

The OpenAI chat-completion collaborator is an oracle
`complete : List ChatMessage → Except String String`; the RAG retrieval
collaborator `getRelevantContext` (ragService.js) is an oracle
`String → Except String RagContext`. -/

structure ChatMessage where
  role : String
  content : String
deriving DecidableEq

/-- An element of the `sources` array built by `getRelevantContext`
(`ragService.js` lines 230-234). -/
structure RagSource where
  pageName : String
  url : String
  relevanceScore : ℚ
deriving DecidableEq

/-- The value returned by `getRelevantContext` (`ragService.js` lines
228-236). -/
structure RagContext where
  context : String
  sources : List RagSource
  hasContext : Bool
deriving DecidableEq

/-- The response object of `getAgentResponse`.  `ragSources := none` models a
JS object without the `ragSources` field (only the tier-2 return includes
it). -/
structure AgentResponse where
  answer : String
  source : String
  confidence : Option ℚ
  matchedQuestion : Option String
  ragSources : Option (List RagSource)
deriving DecidableEq

/-- The static system prompt of `getOpenAIResponseWithRAG`
(`agentService.js` lines 107-124). -/
def thoughtfulSystemPrompt : String :=
  "You are a helpful customer support agent for Thoughtful AI, a company that provides AI-powered automation agents for healthcare revenue cycle management (RCM).\n\nThoughtful AI is now proudly part of Smarter Technologies.\n\nOur main solutions include:\n- Prior Authorization: AI-powered automation of the end-to-end prior authorization process\n- Medical Coding: Fine-tuned generative AI for fast and accurate medical coding\n- Accounts Receivable: AI that checks status claims, auto-corrects denials, and generates appeal letters\n- Payment Posting: Automated reconciliation of payments and posting of remittances\n\nKey benefits:\n- 95%+ Accuracy Improvement\n- Seamless Full RCM Coverage\n- Unlimited Scalability Without Additional Cost\n- Continuous Adaption to Regulatory Change\n- Predictable and Fast Cash Flow\n\nBe friendly, professional, and helpful. Provide accurate information based on the context provided. If the context doesn\x27t contain relevant information, be honest about it while still trying to help."

/-- The conditional RAG-context suffix of the system prompt
(`agentService.js` lines 127-129). -/
def buildSystemPrompt (ragContext : Option RagContext) : String :=
  match ragContext with
  | some ctx =>
      if ctx.hasContext then
        thoughtfulSystemPrompt ++
          "\n\n--- RELEVANT INFORMATION FROM THOUGHTFUL.AI ---\n" ++ ctx.context ++
          "\n--- END OF RELEVANT INFORMATION ---\n\nUse the above information to provide accurate and detailed responses. Cite specific details when relevant."
      else thoughtfulSystemPrompt
  | none => thoughtfulSystemPrompt

/-- The function `getOpenAIResponseWithRAG(userQuery, conversationHistory, ragContext)` of
`agentService.js` lines 102-151: builds the message list, calls the completion
collaborator, and pairs the answer with `ragContext?.sources || []`. -/
def getOpenAIResponseWithRAG (complete : List ChatMessage → Except String String)
    (userQuery : String) (conversationHistory : List ChatMessage)
    (ragContext : Option RagContext) : Except String (String × List RagSource) :=
  let messages := ⟨"system", buildSystemPrompt ragContext⟩ ::
    (conversationHistory.map fun m => (⟨m.role, m.content⟩ : ChatMessage)) ++
    [⟨"user", userQuery⟩]
  match complete messages with
  | Except.error e => Except.error e
  | Except.ok answer =>
      Except.ok (answer, match ragContext with | some ctx => ctx.sources | none => [])

/-- The function `getOpenAIResponse` of `agentService.js` lines 159-162 (RAG-less
fallback call, returning only the answer). -/
def getOpenAIResponse (complete : List ChatMessage → Except String String)
    (userQuery : String) (conversationHistory : List ChatMessage) : Except String String :=
  match getOpenAIResponseWithRAG complete userQuery conversationHistory none with
  | Except.error e => Except.error e
  | Except.ok result => Except.ok result.1

/-- The value `Math.max(...ragContext.sources.map(s => s.relevanceScore), 0)` of
`agentService.js` line 192. -/
def maxRelevance (sources : List RagSource) : ℚ :=
  sources.foldl (fun acc s => max acc s.relevanceScore) 0

/-- The body of the tier-2 `try` block of `getAgentResponse`
(`agentService.js` lines 186-195): retrieval followed by completion. -/
def ragTierAttempt (getRelevantContext : String → Except String RagContext)
    (complete : List ChatMessage → Except String String)
    (userQuery : String) (conversationHistory : List ChatMessage) :
    Except String (RagContext × String × List RagSource) :=
  match getRelevantContext userQuery with
  | Except.error e => Except.error e
  | Except.ok ragContext =>
      match getOpenAIResponseWithRAG complete userQuery conversationHistory (some ragContext) with
      | Except.error e => Except.error e
      | Except.ok ragResponse => Except.ok (ragContext, ragResponse)

/-- The final fallback of `getAgentResponse` (`agentService.js` lines
202-209). -/
def fallbackResponse (complete : List ChatMessage → Except String String)
    (userQuery : String) (conversationHistory : List ChatMessage) :
    Except String AgentResponse :=
  match getOpenAIResponse complete userQuery conversationHistory with
  | Except.error e => Except.error e
  | Except.ok aiResponse => Except.ok ⟨aiResponse, "openai", none, none, none⟩

/-- Tiers 2 and 3 of `getAgentResponse` (`agentService.js` lines 183-209):
the RAG tier runs only when `isInitialized()`; an error inside it is caught
and control falls through to the fallback tier. -/
def afterPredefinedTier (isInit : Bool)
    (getRelevantContext : String → Except String RagContext)
    (complete : List ChatMessage → Except String String)
    (userQuery : String) (conversationHistory : List ChatMessage) :
    Except String AgentResponse :=
  if isInit then
    match ragTierAttempt getRelevantContext complete userQuery conversationHistory with
    | Except.ok (ragContext, answer, sources) =>
        Except.ok ⟨answer,
          if ragContext.hasContext then "rag" else "openai",
          if ragContext.hasContext then some (maxRelevance ragContext.sources) else none,
          none,
          some sources⟩
    | Except.error _ => fallbackResponse complete userQuery conversationHistory
  else fallbackResponse complete userQuery conversationHistory

/-- The function `getAgentResponse(userQuery, conversationHistory)` of `agentService.js`
lines 170-210, with the QA catalog and the two collaborators as
parameters. -/
def getAgentResponse (catalog : List QA) (isInit : Bool)
    (getRelevantContext : String → Except String RagContext)
    (complete : List ChatMessage → Except String String)
    (userQuery : String) (conversationHistory : List ChatMessage) :
    Except String AgentResponse :=
  match findBestMatch catalog userQuery with
  | Except.error e => Except.error e
  | Except.ok (some m) =>
      if (3 : ℚ)/5 < m.confidence then
        Except.ok ⟨m.answer, "predefined", some m.confidence, some m.matchedQuestion, none⟩
      else
        afterPredefinedTier isInit getRelevantContext complete userQuery conversationHistory
  | Except.ok none =>
      afterPredefinedTier isInit getRelevantContext complete userQuery conversationHistory

/-! ### The knowledge-base coordinator (knowledgeService.js, lines 9-47)

The module state is `initializationPromise` (here: an `Option Nat` promise
handle plus ghost counters) and `initializationError`.  JavaScript async
functions run uninterrupted up to their first `await`, so
`initializeKnowledgeBase`'s lines 19-35 (the initialized check, the in-flight
check, and installing the new promise) execute atomically; `initCall`
models exactly that prefix.  Awaiting the promise and the
`try/catch/finally` of lines 37-46 happen on completion of the underlying
run, modelled by `settleInitialization`. -/

structure KbState where
  /-- `initializationPromise` (`null` or a promise identity). -/
  initializationPromise : Option Nat
  /-- `initializationError?.message`. -/
  initializationError : Option String
  /-- `isInitialized()` of the RAG store. -/
  ragInitialized : Bool
  /-- Ghost: how many `performInitialization` runs were ever started. -/
  startedRuns : Nat
  /-- Ghost: supply of fresh promise identities. -/
  nextPromiseId : Nat
deriving DecidableEq

/-- What a call to `initializeKnowledgeBase` does before it first suspends. -/
inductive InitCallOutcome where
  /-- Returned the `already initialized` status object (lines 19-26). -/
  | alreadyInitialized
  /-- Returned / awaits the promise with this identity (lines 29-38). -/
  | attached (promiseId : Nat)
deriving DecidableEq

/-- The synchronous prefix of `initializeKnowledgeBase(force)`
(`knowledgeService.js` lines 17-35). -/
def initCall (force : Bool) (st : KbState) : KbState × InitCallOutcome :=
  if st.ragInitialized && !force then
    (st, InitCallOutcome.alreadyInitialized)
  else
    match st.initializationPromise with
    | some p => (st, InitCallOutcome.attached p)
    | none =>
        ({ st with
            initializationPromise := some st.nextPromiseId,
            startedRuns := st.startedRuns + 1,
            nextPromiseId := st.nextPromiseId + 1 },
         InitCallOutcome.attached st.nextPromiseId)

/-- The `try/catch/finally` of `knowledgeService.js` lines 37-46, run when
the in-flight promise settles with `result`. -/
def settleInitialization (result : Except String Unit) (st : KbState) : KbState :=
  { st with
      initializationPromise := none,
      initializationError := match result with
        | Except.ok _ => none
        | Except.error e => some e }

/-- The function `refreshKnowledgeBase()` of `knowledgeService.js` lines 122-124. -/
def callRefresh (st : KbState) : KbState × InitCallOutcome :=
  initCall true st

/-! ### The text extractor (scraperService.js, lines 153-200)

The htmlparser2 tokenizer is the external collaborator: it turns markup into
a stream of `onopentag`/`ontext`/`onclosetag` callbacks.  The embedded code
is the callback record of `extractTextFromHtml`, folded over that event
stream. -/

inductive HtmlEvent where
  | openTag (name : String)
  | textEv (text : String)
  | closeTag (name : String)
deriving DecidableEq

/-- The array `tagsToSkip` of `scraperService.js` line 157. -/
def tagsToSkip : List String :=
  ["script", "style", "nav", "footer", "header", "noscript"]

/-- The array `contentTags` of `scraperService.js` line 158. -/
def contentTags : List String :=
  ["h1", "h2", "h3", "h4", "p", "li", "span", "div", "a"]

/-- The mutable parser-callback state of `extractTextFromHtml`
(`scraperService.js` lines 154-159). -/
structure ExtractState where
  textParts : List String
  currentTag : String
  skipContent : Bool
  currentText : String
deriving DecidableEq

/-- One parser callback of `extractTextFromHtml` (`scraperService.js` lines
161-192). -/
def onHtmlEvent (st : ExtractState) (e : HtmlEvent) : ExtractState :=
  match e with
  | HtmlEvent.openTag name =>
      let currentTag := jsToLower name
      { st with
          currentTag,
          skipContent := if currentTag ∈ tagsToSkip then true else st.skipContent,
          currentText := "" }
  | HtmlEvent.textEv text =>
      if !st.skipContent && st.currentTag ∈ contentTags then
        let trimmed := jsTrim text
        if trimmed ≠ "" then { st with currentText := st.currentText ++ trimmed ++ " " }
        else st
      else st
  | HtmlEvent.closeTag tagname =>
      let tag := jsToLower tagname
      let skipContent := if tag ∈ tagsToSkip then false else st.skipContent
      let trimmedText := jsTrim st.currentText
      let minLength : Nat := if tag ∈ ["h1", "h2", "h3", "h4"] then 3 else 10
      { textParts :=
          if trimmedText ≠ "" ∧ minLength ≤ trimmedText.length then
            st.textParts ++ [trimmedText]
          else st.textParts,
        currentTag := "",
        skipContent,
        currentText := "" }

/-- The function `extractTextFromHtml` (`scraperService.js` lines 153-200) applied to the
tokenizer's event stream: fold the callbacks, then deduplicate
(`[...new Set(textParts)]`) and join with blank lines. -/
def extractTextFromHtml (events : List HtmlEvent) : String :=
  String.intercalate "\n\n"
    (dedupFirst [] (events.foldl onHtmlEvent ⟨[], "", false, ""⟩).textParts)

/-! ## Lemmas about `chunkText` -/

/-- The total effect on `currentChunk` of the non-flushing branch of the
`chunkText` loop over a list of sentences: join with single spaces (no space
when the buffer is empty). -/
def jsJoinAll (cur : List Char) (ss : List (List Char)) : List Char :=
  ss.foldl (fun c s => c ++ (if c.isEmpty then [] else [' ']) ++ s) cur

/-- The trimmed input with each inter-sentence whitespace separator
collapsed to a single space: what `chunkText` actually returns for short
inputs. -/
def sentencesJoined (text : String) : String :=
  ⟨jsJoinAll [] (splitSentencesAux text.data (some []))⟩

/-- Total length of a sentence list counting one separator per sentence. -/
def sentencesLen : List (List Char) → Nat
  | [] => 0
  | s :: ss => s.length + 1 + sentencesLen ss

theorem chunkLoop_append (maxChunkSize overlap : Nat) :
    ∀ (ss : List (List Char)) (cur : List Char) (c1 c2 : List (List Char)),
      chunkLoop maxChunkSize overlap ss cur (c1 ++ c2) =
        c1 ++ chunkLoop maxChunkSize overlap ss cur c2 := by
  intro ss
  induction ss with
  | nil =>
      intro cur c1 c2
      unfold chunkLoop
      by_cases h : jsTrimL cur = []
      · rw [if_pos h, if_pos h]
      · rw [if_neg h, if_neg h, List.append_assoc]
  | cons s rest ih =>
      intro cur c1 c2
      unfold chunkLoop
      by_cases h : (decide ((cur ++ s).length > maxChunkSize)
          && decide (cur.length > 0)) = true
      · rw [if_pos h, if_pos h, List.append_assoc]
        exact ih _ _ _
      · rw [if_neg h, if_neg h]
        exact ih _ _ _

theorem mem_chunkLoop (maxChunkSize overlap : Nat) (ss : List (List Char))
    (cur : List Char) (chunks : List (List Char)) (c : List Char) (hc : c ∈ chunks) :
    c ∈ chunkLoop maxChunkSize overlap ss cur chunks := by
  have h := chunkLoop_append maxChunkSize overlap ss cur chunks []
  rw [List.append_nil] at h
  rw [h]
  exact List.mem_append_left _ hc

theorem dropWhile_head_not (p : Char → Bool) (l : List Char) :
    l.dropWhile p = [] ∨ ∃ c cs, l.dropWhile p = c :: cs ∧ p c = false := by
  induction l with
  | nil => exact Or.inl rfl
  | cons x xs ih =>
      rw [List.dropWhile_cons]
      by_cases h : p x = true
      · rw [if_pos h]; exact ih
      · rw [if_neg h]
        exact Or.inr ⟨x, xs, rfl, by simpa using h⟩

theorem trimRightL_prefix_self (l : List Char) : trimRightL l <+: l := by
  have h1 : l.reverse.dropWhile isJsWs <:+ l.reverse := List.dropWhile_suffix isJsWs
  have h2 : (trimRightL l).reverse <:+ l.reverse := by
    unfold trimRightL
    rw [List.reverse_reverse]
    exact h1
  exact List.reverse_suffix.1 h2

theorem jsTrimL_infix_self (l : List Char) : jsTrimL l <:+: l := by
  have h1 : trimLeftL l <:+ l := List.dropWhile_suffix isJsWs
  exact ((trimRightL_prefix_self (trimLeftL l)).isInfix).trans h1.isInfix

/-- If the trimmed form is nonempty, it starts with a non-whitespace
character. -/
theorem jsTrimL_head (l : List Char) :
    jsTrimL l = [] ∨ ∃ c cs, jsTrimL l = c :: cs ∧ isJsWs c = false := by
  rcases dropWhile_head_not isJsWs l with h | ⟨c, cs, h, hc⟩
  · left
    unfold jsTrimL trimRightL trimLeftL
    rw [h]
    rfl
  · have hpre : trimRightL (trimLeftL l) <+: trimLeftL l := trimRightL_prefix_self _
    unfold trimLeftL at hpre
    rw [h] at hpre
    rcases hpre with ⟨t, ht⟩
    cases htrim : trimRightL (c :: cs) with
    | nil =>
        left
        unfold jsTrimL trimLeftL
        rw [h]
        exact htrim
    | cons c' cs' =>
        rw [htrim] at ht
        have : c' = c := by
          have := congrArg (fun x => x.head?) ht
          simpa using this
        right
        refine ⟨c', cs', ?_, ?_⟩
        · unfold jsTrimL trimLeftL
          rw [h]
          exact htrim
        · rw [this]; exact hc

/-- If the trimmed form is nonempty, it ends with a non-whitespace character
(stated via its reverse). -/
theorem jsTrimL_reverse_head (l : List Char) :
    jsTrimL l = [] ∨ ∃ c cs, (jsTrimL l).reverse = c :: cs ∧ isJsWs c = false := by
  have hrev : (jsTrimL l).reverse = (trimLeftL l).reverse.dropWhile isJsWs := by
    unfold jsTrimL trimRightL
    rw [List.reverse_reverse]
  rcases dropWhile_head_not isJsWs (trimLeftL l).reverse with h | ⟨c, cs, h, hc⟩
  · left
    have : (jsTrimL l).reverse = [] := by rw [hrev, h]
    exact List.reverse_eq_nil_iff.1 this
  · right
    exact ⟨c, cs, by rw [hrev, h], hc⟩

theorem infix_trimLeftL (w v : List Char) (hw : w <:+: v)
    (hhead : ∃ c cs, w = c :: cs ∧ isJsWs c = false) : w <:+: trimLeftL v := by
  rcases hw with ⟨p, q, hv⟩
  rcases hhead with ⟨c, cs, hwc, hc⟩
  unfold trimLeftL
  rw [← hv, List.append_assoc, List.dropWhile_append]
  by_cases hp : (p.dropWhile isJsWs).isEmpty = true
  · rw [if_pos hp, hwc, List.cons_append, List.dropWhile_cons, if_neg (by simp [hc]),
      ← List.cons_append, ← hwc]
    exact ⟨[], q, rfl⟩
  · rw [if_neg hp]
    exact ⟨p.dropWhile isJsWs, q, by rw [List.append_assoc]⟩

theorem infix_jsTrimL (w v : List Char) (hw : w <:+: v)
    (hhead : ∃ c cs, w = c :: cs ∧ isJsWs c = false)
    (hlast : ∃ c cs, w.reverse = c :: cs ∧ isJsWs c = false) : w <:+: jsTrimL v := by
  have h1 : w <:+: trimLeftL v := infix_trimLeftL w v hw hhead
  have h2 : w.reverse <:+: (trimLeftL v).reverse := List.reverse_infix.2 h1
  have h3 : w.reverse <:+: (trimLeftL v).reverse.dropWhile isJsWs :=
    infix_trimLeftL w.reverse (trimLeftL v).reverse h2 hlast
  have h4 := List.reverse_infix.2 h3
  rw [List.reverse_reverse] at h4
  show w <:+: ((trimLeftL v).reverse.dropWhile isJsWs).reverse
  exact h4

/-- Once a nonempty whitespace-free word is inside the running buffer, some
chunk of the loop's output contains it. -/
theorem chunkLoop_covers (maxChunkSize overlap : Nat) :
    ∀ (ss : List (List Char)) (cur : List Char) (chunks : List (List Char)) (w : List Char),
      w <:+: cur →
      (∃ c cs, w = c :: cs ∧ isJsWs c = false) →
      (∃ c cs, w.reverse = c :: cs ∧ isJsWs c = false) →
      ∃ ch ∈ chunkLoop maxChunkSize overlap ss cur chunks, w <:+: ch := by
  intro ss
  induction ss with
  | nil =>
      intro cur chunks w hw hhead hlast
      have htr : w <:+: jsTrimL cur := infix_jsTrimL w cur hw hhead hlast
      have hne : jsTrimL cur ≠ [] := by
        intro h0
        rw [h0] at htr
        rcases hhead with ⟨c, cs, hwc, _⟩
        rw [List.infix_nil] at htr
        rw [htr] at hwc
        exact List.noConfusion hwc
      unfold chunkLoop
      rw [if_neg hne]
      exact ⟨jsTrimL cur, List.mem_append_right _ (List.mem_singleton.2 rfl), htr⟩
  | cons s rest ih =>
      intro cur chunks w hw hhead hlast
      unfold chunkLoop
      by_cases hcond : (decide ((cur ++ s).length > maxChunkSize)
          && decide (cur.length > 0)) = true
      · rw [if_pos hcond]
        have htr : w <:+: jsTrimL cur := infix_jsTrimL w cur hw hhead hlast
        exact ⟨jsTrimL cur,
          mem_chunkLoop maxChunkSize overlap rest _ _ _
            (List.mem_append_right _ (List.mem_singleton.2 rfl)), htr⟩
      · rw [if_neg hcond]
        refine ih _ chunks w ?_ hhead hlast
        exact hw.trans (((List.prefix_append cur (if cur.isEmpty then [] else [' '])).trans
          (List.prefix_append (cur ++ if cur.isEmpty then [] else [' ']) s)).isInfix)

/-- Every sentence handed to the loop ends up (trimmed) inside some output
chunk. -/
theorem chunkLoop_sentence (maxChunkSize overlap : Nat) :
    ∀ (ss : List (List Char)) (cur : List Char) (chunks : List (List Char))
      (s : List Char), s ∈ ss → jsTrimL s ≠ [] →
      ∃ ch ∈ chunkLoop maxChunkSize overlap ss cur chunks, jsTrimL s <:+: ch := by
  intro ss
  induction ss with
  | nil => intro cur chunks s hs _; exact absurd hs (List.not_mem_nil s)
  | cons s0 rest ih =>
      intro cur chunks s hs hne
      have hhead : ∃ c cs, jsTrimL s = c :: cs ∧ isJsWs c = false :=
        (jsTrimL_head s).resolve_left hne
      have hlast : ∃ c cs, (jsTrimL s).reverse = c :: cs ∧ isJsWs c = false :=
        (jsTrimL_reverse_head s).resolve_left hne
      rcases List.mem_cons.1 hs with rfl | hs
      · -- the sentence is consumed by this step and is a suffix of the new buffer
        unfold chunkLoop
        by_cases hcond : (decide ((cur ++ s).length > maxChunkSize)
            && decide (cur.length > 0)) = true
        · rw [if_pos hcond]
          refine chunkLoop_covers maxChunkSize overlap rest _ _ _ ?_ hhead hlast
          have hsuf : s <:+ joinSpaceL (sliceLast (overlap / 10) (splitOnSpaceL cur)) ++
              ' ' :: s := by
            have : joinSpaceL (sliceLast (overlap / 10) (splitOnSpaceL cur)) ++ ' ' :: s =
                (joinSpaceL (sliceLast (overlap / 10) (splitOnSpaceL cur)) ++ [' ']) ++ s := by
              rw [List.append_assoc]
              rfl
            rw [this]
            exact List.suffix_append _ s
          exact (jsTrimL_infix_self s).trans hsuf.isInfix
        · rw [if_neg hcond]
          refine chunkLoop_covers maxChunkSize overlap rest _ _ _ ?_ hhead hlast
          exact (jsTrimL_infix_self s).trans (List.suffix_append _ s).isInfix
      · unfold chunkLoop
        by_cases hcond : (decide ((cur ++ s0).length > maxChunkSize)
            && decide (cur.length > 0)) = true
        · rw [if_pos hcond]
          exact ih _ _ s hs hne
        · rw [if_neg hcond]
          exact ih _ _ s hs hne

theorem isSentTerm_eq_false_of_isJsWs (c : Char) (h : isJsWs c = true) :
    isSentTerm c = false := by
  unfold isJsWs at h
  simp only [Bool.or_eq_true, decide_eq_true_eq] at h
  rcases h with ((((h | h) | h) | h) | h) | h <;> subst h <;> rfl

theorem allWs_of_jsTrimL_nil (l : List Char) (h : jsTrimL l = []) :
    ∀ c ∈ l, isJsWs c = true := by
  unfold jsTrimL trimRightL at h
  have h1 : (trimLeftL l).reverse.dropWhile isJsWs = [] := List.reverse_eq_nil_iff.1 h
  have h2 : ∀ c ∈ (trimLeftL l).reverse, isJsWs c = true := List.dropWhile_eq_nil_iff.1 h1
  have h3 : ∀ c ∈ trimLeftL l, isJsWs c = true := fun c hc => h2 c (List.mem_reverse.2 hc)
  intro c hc
  have hsplit : l.takeWhile isJsWs ++ l.dropWhile isJsWs = l :=
    List.takeWhile_append_dropWhile isJsWs l
  rw [← hsplit] at hc
  rcases List.mem_append.1 hc with hc | hc
  · exact List.mem_takeWhile_imp hc
  · exact h3 c hc

theorem jsTrimL_nil_of_allWs (l : List Char) (h : ∀ c ∈ l, isJsWs c = true) :
    jsTrimL l = [] := by
  unfold jsTrimL trimLeftL trimRightL
  rw [List.dropWhile_eq_nil_iff.2 h]
  rfl

theorem splitSentencesAux_allWs (cs : List Char) (hcs : ∀ c ∈ cs, isJsWs c = true) :
    ∀ acc : List Char, (∀ c ∈ acc, isJsWs c = true) →
      splitSentencesAux cs (some acc) = [acc.reverse ++ cs] := by
  induction cs with
  | nil => intro acc _; simp [splitSentencesAux]
  | cons c cs' ih =>
      intro acc hacc
      have hc : isJsWs c = true := hcs c (List.mem_cons_self c cs')
      have hcond : sentSplitHere c acc = false := by
        unfold sentSplitHere
        cases acc with
        | nil => simp
        | cons p ps =>
            have hp : isJsWs p = true := hacc p (List.mem_cons_self p ps)
            simp [isSentTerm_eq_false_of_isJsWs p hp]
      unfold splitSentencesAux
      rw [hcond, if_neg (by decide : ¬(false = true))]
      show splitSentencesAux cs' (some (c :: acc)) = [acc.reverse ++ c :: cs']
      rw [ih (fun x hx => hcs x (List.mem_cons_of_mem c hx)) (c :: acc)
        (fun x hx => by
          rcases List.mem_cons.1 hx with rfl | hx
          · exact hc
          · exact hacc x hx)]
      rw [List.reverse_cons, List.append_assoc]
      rfl

theorem jsJoinAll_cons (cur s : List Char) (ss : List (List Char)) :
    jsJoinAll cur (s :: ss) =
      jsJoinAll (cur ++ (if cur.isEmpty then [] else [' ']) ++ s) ss := rfl

theorem sentencesLen_cons (s : List Char) (ss : List (List Char)) :
    sentencesLen (s :: ss) = s.length + 1 + sentencesLen ss := rfl

theorem length_le_jsJoinAll (ss : List (List Char)) :
    ∀ cur : List Char, cur.length ≤ (jsJoinAll cur ss).length := by
  induction ss with
  | nil => intro cur; exact Nat.le_refl _
  | cons s rest ih =>
      intro cur
      rw [jsJoinAll_cons]
      calc cur.length ≤ (cur ++ (if cur.isEmpty then [] else [' ']) ++ s).length := by
            rw [List.append_assoc, List.length_append]
            exact Nat.le_add_right _ _
        _ ≤ _ := ih _

theorem jsJoinAll_length_le (ss : List (List Char)) :
    ∀ cur : List Char, (jsJoinAll cur ss).length ≤ cur.length + sentencesLen ss := by
  induction ss with
  | nil => intro cur; simp [jsJoinAll, sentencesLen]
  | cons s rest ih =>
      intro cur
      rw [jsJoinAll_cons]
      calc (jsJoinAll (cur ++ (if cur.isEmpty then [] else [' ']) ++ s) rest).length
          ≤ (cur ++ (if cur.isEmpty then [] else [' ']) ++ s).length + sentencesLen rest :=
            ih _
        _ ≤ cur.length + sentencesLen (s :: rest) := by
            rw [List.append_assoc, List.length_append, List.length_append,
              sentencesLen_cons]
            have hsep : (if cur.isEmpty then ([] : List Char) else [' ']).length ≤ 1 := by
              by_cases h : cur.isEmpty <;> simp [h]
            omega

theorem splitSentencesAux_len (cs : List Char) :
    (∀ acc : List Char,
      sentencesLen (splitSentencesAux cs (some acc)) ≤ cs.length + acc.length + 1)
    ∧ sentencesLen (splitSentencesAux cs none) ≤ cs.length + 1 := by
  induction cs with
  | nil =>
      constructor
      · intro acc
        simp [splitSentencesAux, sentencesLen, List.length_reverse]
      · simp [splitSentencesAux, sentencesLen]
  | cons c cs' ih =>
      constructor
      · intro acc
        unfold splitSentencesAux
        by_cases hcond : sentSplitHere c acc = true
        · rw [if_pos hcond, sentencesLen_cons]
          have h2 := ih.2
          rw [List.length_reverse, List.length_cons]
          omega
        · rw [if_neg hcond]
          have h1 := ih.1 (c :: acc)
          rw [List.length_cons] at h1 ⊢
          omega
      · unfold splitSentencesAux
        by_cases hc : isJsWs c = true
        · rw [if_pos hc]
          have h2 := ih.2
          rw [List.length_cons]
          omega
        · rw [if_neg hc]
          have h1 := ih.1 [c]
          rw [List.length_cons]
          simp only [List.length_cons, List.length_nil] at h1
          omega

theorem splitSentencesAux_ne_nil (cs : List Char) :
    (∀ acc : List Char, splitSentencesAux cs (some acc) ≠ [])
    ∧ splitSentencesAux cs none ≠ [] := by
  induction cs with
  | nil =>
      exact ⟨fun acc => by simp [splitSentencesAux], by simp [splitSentencesAux]⟩
  | cons c cs' ih =>
      constructor
      · intro acc
        unfold splitSentencesAux
        by_cases hcond : sentSplitHere c acc = true
        · rw [if_pos hcond]
          exact List.cons_ne_nil _ _
        · rw [if_neg hcond]
          exact ih.1 (c :: acc)
      · unfold splitSentencesAux
        by_cases hc : isJsWs c = true
        · rw [if_pos hc]
          exact ih.2
        · rw [if_neg hc]
          exact ih.1 [c]

theorem chunkLoop_no_flush (maxChunkSize overlap : Nat) :
    ∀ (ss : List (List Char)) (cur : List Char) (chunks : List (List Char)),
      (jsJoinAll cur ss).length ≤ maxChunkSize →
      chunkLoop maxChunkSize overlap ss cur chunks =
        chunks ++ (if jsTrimL (jsJoinAll cur ss) = [] then []
          else [jsTrimL (jsJoinAll cur ss)]) := by
  intro ss
  induction ss with
  | nil =>
      intro cur chunks _
      unfold chunkLoop jsJoinAll
      simp only [List.foldl_nil]
      by_cases h : jsTrimL cur = []
      · rw [if_pos h, if_pos h, List.append_nil]
      · rw [if_neg h, if_neg h]
  | cons s rest ih =>
      intro cur chunks hlen
      have hcur : (cur ++ s).length ≤ maxChunkSize := by
        have h1 : (cur ++ s).length ≤
            (cur ++ (if cur.isEmpty then [] else [' ']) ++ s).length := by
          rw [List.length_append, List.append_assoc, List.length_append, List.length_append]
          omega
        have h2 := length_le_jsJoinAll rest (cur ++ (if cur.isEmpty then [] else [' ']) ++ s)
        rw [jsJoinAll_cons] at hlen
        omega
      have hcond : (decide ((cur ++ s).length > maxChunkSize)
          && decide (cur.length > 0)) = false := by
        have : decide ((cur ++ s).length > maxChunkSize) = false :=
          decide_eq_false (by omega)
        rw [this, Bool.false_and]
      unfold chunkLoop
      rw [hcond]
      show chunkLoop maxChunkSize overlap rest
          (cur ++ (if cur.isEmpty then [] else [' ']) ++ s) chunks = _
      rw [ih _ chunks (by rw [jsJoinAll_cons] at hlen; exact hlen), jsJoinAll_cons]

theorem mem_jsJoinAll_of_mem_cur (ss : List (List Char)) :
    ∀ (cur : List Char) (c : Char), c ∈ cur → c ∈ jsJoinAll cur ss := by
  induction ss with
  | nil => intro cur c hc; exact hc
  | cons s rest ih =>
      intro cur c hc
      rw [jsJoinAll_cons]
      exact ih _ c (List.mem_append_left _ (List.mem_append_left _ hc))

theorem mem_jsJoinAll_of_mem_sentence (ss : List (List Char)) :
    ∀ (cur s : List Char) (c : Char), s ∈ ss → c ∈ s → c ∈ jsJoinAll cur ss := by
  induction ss with
  | nil => intro cur s c hs _; exact absurd hs (List.not_mem_nil s)
  | cons s0 rest ih =>
      intro cur s c hs hc
      rw [jsJoinAll_cons]
      rcases List.mem_cons.1 hs with rfl | hs
      · exact mem_jsJoinAll_of_mem_cur rest _ c (List.mem_append_right _ hc)
      · exact ih _ s c hs hc

theorem splitSentencesAux_mem_char (cs : List Char) :
    (∀ (acc : List Char) (c : Char), (c ∈ acc ∨ c ∈ cs) → isJsWs c = false →
      ∃ s ∈ splitSentencesAux cs (some acc), c ∈ s)
    ∧ (∀ c ∈ cs, isJsWs c = false →
      ∃ s ∈ splitSentencesAux cs none, c ∈ s) := by
  induction cs with
  | nil =>
      constructor
      · intro acc c hc _
        rcases hc with hc | hc
        · exact ⟨acc.reverse, List.mem_singleton.2 rfl, List.mem_reverse.2 hc⟩
        · exact absurd hc (List.not_mem_nil c)
      · intro c hc
        exact absurd hc (List.not_mem_nil c)
  | cons c0 cs' ih =>
      constructor
      · intro acc c hc hcws
        unfold splitSentencesAux
        by_cases hcond : sentSplitHere c0 acc = true
        · rw [if_pos hcond]
          have hc0 : isJsWs c0 = true := by
            unfold sentSplitHere at hcond
            rw [Bool.and_eq_true] at hcond
            exact hcond.1
          rcases hc with hc | hc
          · exact ⟨acc.reverse, List.mem_cons_self _ _, List.mem_reverse.2 hc⟩
          · rcases List.mem_cons.1 hc with rfl | hc
            · rw [hc0] at hcws; exact Bool.noConfusion hcws
            · rcases ih.2 c hc hcws with ⟨s, hs, hcs⟩
              exact ⟨s, List.mem_cons_of_mem _ hs, hcs⟩
        · rw [if_neg hcond]
          refine ih.1 (c0 :: acc) c ?_ hcws
          rcases hc with hc | hc
          · exact Or.inl (List.mem_cons_of_mem c0 hc)
          · rcases List.mem_cons.1 hc with rfl | hc
            · exact Or.inl (List.mem_cons_self c acc)
            · exact Or.inr hc
      · intro c hc hcws
        unfold splitSentencesAux
        by_cases hc0 : isJsWs c0 = true
        · rw [if_pos hc0]
          rcases List.mem_cons.1 hc with rfl | hc
          · rw [hc0] at hcws; exact Bool.noConfusion hcws
          · exact ih.2 c hc hcws
        · rw [if_neg hc0]
          refine ih.1 [c0] c ?_ hcws
          rcases List.mem_cons.1 hc with rfl | hc
          · exact Or.inl (List.mem_cons_self c [])
          · exact Or.inr hc

/-- C1 counterexample: the untrimmed sentence `" a"` (carrying the leading
whitespace the split leaves on a first sentence) is not a substring of any
chunk, because chunks are trimmed; and a sentence longer than `maxSize`
arriving mid-text does not become its own chunk — its chunk is prefixed with
overlap words from the previous flush. -/
theorem chunkText_sentences_counterexample :
    splitSentences " a" = [" a"]
    ∧ chunkText " a" 500 50 = ["a"]
    ∧ ¬((" a" : String).data <:+: ("a" : String).data)
    ∧ splitSentences "aa. bbbbbbbb" = ["aa.", "bbbbbbbb"]
    ∧ ("bbbbbbbb" : String).length > 5
    ∧ chunkText "aa. bbbbbbbb" 5 50 = ["aa.", "aa. bbbbbbbb"]
    ∧ ("bbbbbbbb" : String) ∉ chunkText "aa. bbbbbbbb" 5 50 := by
  refine ⟨by decide, by decide, by decide, by decide, by decide, by decide, by decide⟩

/-- C1 (amended): for every input and every `maxSize` and `overlap`, each
sentence produced by the split appears, after trimming, as a contiguous
substring of at least one chunk (so no sentence — in particular no sentence
longer than `maxSize` — is ever truncated, dropped, or split across chunks);
and empty or whitespace-only input yields zero chunks. -/
theorem chunkText_sentence_coverage (text : String) (maxChunkSize overlap : Nat) :
    (∀ s ∈ splitSentences text, jsTrim s ≠ "" →
      ∃ c ∈ chunkText text maxChunkSize overlap, (jsTrim s).data <:+: c.data)
    ∧ (jsTrim text = "" → chunkText text maxChunkSize overlap = []) := by
  constructor
  · intro s hs hne
    rcases List.mem_map.1 hs with ⟨l, hl, rfl⟩
    have hnel : jsTrimL l ≠ [] := by
      intro h0
      exact hne (congrArg String.mk h0)
    rcases chunkLoop_sentence maxChunkSize overlap
      (splitSentencesAux text.data (some [])) [] [] l hl hnel with ⟨ch, hch, hinfl⟩
    exact ⟨⟨ch⟩, List.mem_map_of_mem _ hch, hinfl⟩
  · intro h
    have hdata : jsTrimL text.data = [] := congrArg String.data h
    have hallws : ∀ c ∈ text.data, isJsWs c = true := allWs_of_jsTrimL_nil _ hdata
    unfold chunkText
    rw [splitSentencesAux_allWs text.data hallws [] (fun c hc => absurd hc
      (List.not_mem_nil c))]
    show (chunkLoop maxChunkSize overlap [[] ++ text.data] [] []).map
      (fun l => (⟨l⟩ : String)) = []
    unfold chunkLoop
    have hcond : (decide ((([] : List Char) ++ ([] ++ text.data)).length > maxChunkSize)
        && decide (([] : List Char).length > 0)) = false := by
      simp
    rw [hcond]
    show (chunkLoop maxChunkSize overlap []
      (([] : List Char) ++ (if ([] : List Char).isEmpty then [] else [' ']) ++
        ([] ++ text.data)) []).map (fun l => (⟨l⟩ : String)) = []
    unfold chunkLoop
    rw [if_pos (by simpa using hdata)]
    rfl

/-- Witness for C1 (amended): both sentences of a concrete input appear
(trimmed) inside the single produced chunk, and whitespace-only input
produces no chunks. -/
theorem chunkText_sentence_coverage_witness :
    "Hello there." ∈ splitSentences "Hello there. General Kenobi."
    ∧ jsTrim "Hello there." ≠ ""
    ∧ chunkText "Hello there. General Kenobi." 500 50 = ["Hello there. General Kenobi."]
    ∧ (jsTrim "Hello there.").data <:+: ("Hello there. General Kenobi." : String).data
    ∧ jsTrim "   " = ""
    ∧ chunkText "   " 500 50 = [] := by
  rcases (chunkText_sentence_coverage "Hello there. General Kenobi." 500 50).1
      "Hello there." (by decide) (by decide) with ⟨c, hc, hsub⟩
  have hch : chunkText "Hello there. General Kenobi." 500 50 =
      ["Hello there. General Kenobi."] := by decide
  rw [hch] at hc
  have hceq : c = "Hello there. General Kenobi." := List.mem_singleton.1 hc
  subst hceq
  exact ⟨by decide, by decide, hch, hsub, by decide,
    (chunkText_sentence_coverage "   " 500 50).2 (by decide)⟩

/-- C6 counterexample: `"a.  b"` is non-empty, not whitespace-only, and
shorter than the default `maxSize` of 500, and `chunkText` returns exactly
one chunk — but that chunk is `"a. b"` (the double space between the
sentences was collapsed by the space-rejoin), not the trimmed input
`"a.  b"`. -/
theorem chunkText_short_input_counterexample :
    jsTrim "a.  b" ≠ ""
    ∧ ("a.  b" : String).length < 500
    ∧ jsTrim "a.  b" = "a.  b"
    ∧ chunkText "a.  b" 500 50 = ["a. b"]
    ∧ ("a. b" : String) ≠ "a.  b" := by
  refine ⟨by decide, by decide, by decide, by decide, by decide⟩

/-- C6 (amended): for every non-empty, non-whitespace-only input shorter
than `maxSize`, `chunkText` returns exactly one chunk, equal to the trimmed
input with each inter-sentence whitespace separator collapsed to a single
space (`sentencesJoined`); in particular, when the input contains no
sentence separator at all the chunk equals the trimmed input. -/
theorem chunkText_short_input (text : String) (maxChunkSize overlap : Nat)
    (h1 : jsTrim text ≠ "") (h2 : text.length < maxChunkSize) :
    chunkText text maxChunkSize overlap = [jsTrim (sentencesJoined text)] := by
  rcases hss : splitSentencesAux text.data (some []) with _ | ⟨s, rest⟩
  · exact absurd hss ((splitSentencesAux_ne_nil text.data).1 [])
  · have hjoin : jsJoinAll [] (s :: rest) = jsJoinAll s rest := by
      rw [jsJoinAll_cons]
      rfl
    have hlen1 : (jsJoinAll s rest).length ≤ s.length + sentencesLen rest :=
      jsJoinAll_length_le rest s
    have hlen2 : sentencesLen (s :: rest) ≤ text.data.length + 0 + 1 := by
      rw [← hss]
      exact (splitSentencesAux_len text.data).1 []
    have hlen3 : (jsJoinAll [] (s :: rest)).length ≤ text.length := by
      rw [hjoin]
      unfold sentencesLen at hlen2
      have : text.length = text.data.length := rfl
      omega
    have hlen4 : (jsJoinAll [] (s :: rest)).length ≤ maxChunkSize := by omega
    -- the final buffer trims to something non-empty
    have hnonws : ∃ c ∈ text.data, isJsWs c = false := by
      by_contra hall
      push_neg at hall
      have : ∀ c ∈ text.data, isJsWs c = true := by
        intro c hc
        cases h : isJsWs c with
        | false => exact absurd h (hall c hc)
        | true => rfl
      exact h1 (congrArg String.mk (jsTrimL_nil_of_allWs text.data this))
    rcases hnonws with ⟨c, hcmem, hcws⟩
    have hcs : ∃ sx ∈ splitSentencesAux text.data (some []), c ∈ sx :=
      (splitSentencesAux_mem_char text.data).1 [] c (Or.inr hcmem) hcws
    rcases hcs with ⟨sx, hsx, hcsx⟩
    rw [hss] at hsx
    have hcjoin : c ∈ jsJoinAll [] (s :: rest) :=
      mem_jsJoinAll_of_mem_sentence (s :: rest) [] sx c hsx hcsx
    have htr : jsTrimL (jsJoinAll [] (s :: rest)) ≠ [] := by
      intro h0
      have := allWs_of_jsTrimL_nil _ h0 c hcjoin
      rw [this] at hcws
      exact Bool.noConfusion hcws
    unfold chunkText
    rw [hss, chunkLoop_no_flush maxChunkSize overlap (s :: rest) [] [] hlen4,
      if_neg htr]
    unfold sentencesJoined
    rw [hss]
    rfl

/-- Witness for C6 (amended) at a concrete two-sentence input. -/
theorem chunkText_short_input_witness :
    jsTrim "Hi there. Bye now." ≠ ""
    ∧ ("Hi there. Bye now." : String).length < 500
    ∧ chunkText "Hi there. Bye now." 500 50 = [jsTrim (sentencesJoined "Hi there. Bye now.")]
    ∧ jsTrim (sentencesJoined "Hi there. Bye now.") = "Hi there. Bye now." :=
  ⟨by decide, by decide,
   chunkText_short_input "Hi there. Bye now." 500 50 (by decide) (by decide),
   by decide⟩

/-! ## Lemmas about the text extractor -/

/-- Whether an event is the closing of a noise element (these are the events
that reset `skipContent` to `false` in `onclosetag`). -/
def isNoiseClose : HtmlEvent → Bool
  | HtmlEvent.closeTag n => decide (jsToLower n ∈ tagsToSkip)
  | _ => false

theorem onHtmlEvent_skip_preserved (st : ExtractState) (e : HtmlEvent)
    (hst : st.skipContent = true) (he : isNoiseClose e = false) :
    (onHtmlEvent st e).skipContent = true := by
  cases e with
  | openTag name =>
      by_cases h : jsToLower name ∈ tagsToSkip
      · simp [onHtmlEvent, h]
      · simp [onHtmlEvent, h, hst]
  | textEv text => simp [onHtmlEvent, hst]
  | closeTag n =>
      have h : ¬ jsToLower n ∈ tagsToSkip := by
        simpa [isNoiseClose] using he
      simp [onHtmlEvent, h, hst]

theorem foldl_skip_preserved (mid : List HtmlEvent) :
    ∀ st : ExtractState, st.skipContent = true →
      (∀ e ∈ mid, isNoiseClose e = false) →
      (mid.foldl onHtmlEvent st).skipContent = true := by
  induction mid with
  | nil => intro st hst _; exact hst
  | cons e es ih =>
      intro st hst hmid
      rw [List.foldl_cons]
      exact ih (onHtmlEvent st e)
        (onHtmlEvent_skip_preserved st e hst (hmid e (List.mem_cons_self e es)))
        (fun x hx => hmid x (List.mem_cons_of_mem e hx))

theorem onHtmlEvent_text_skipped (st : ExtractState) (s : String)
    (h : st.skipContent = true) : onHtmlEvent st (HtmlEvent.textEv s) = st := by
  simp [onHtmlEvent, h]

/-- C5 counterexample: every event of this stream lies inside the noise
element `nav`, yet the nested `header` element's close tag resets the single
`skipContent` flag, so the text of the inner `p` element leaks into the
output.  Under the claim, the output would have to be empty. -/
theorem extractTextFromHtml_noise_counterexample :
    ("nav" ∈ tagsToSkip)
    ∧ ("header" ∈ tagsToSkip)
    ∧ extractTextFromHtml
        [HtmlEvent.openTag "nav", HtmlEvent.openTag "header", HtmlEvent.textEv "hidden",
         HtmlEvent.closeTag "header", HtmlEvent.openTag "p",
         HtmlEvent.textEv "leaky text content!", HtmlEvent.closeTag "p",
         HtmlEvent.closeTag "nav"] = "leaky text content!"
    ∧ ("leaky text content!" : String) ≠ "" := by
  refine ⟨by decide, by decide, by decide, by decide⟩

/-- C5 (amended): text inside a noise element contributes nothing to the
output as long as no noise element (nested or the element itself) is closed
between the noise element's opening and the text; in particular, text
anywhere inside an un-nested noise region is discarded entirely.  (After a
nested noise element closes, the single `skipContent` flag resets and text
in content-bearing elements inside the outer noise element can leak.)
Formally: deleting such a text event leaves the extractor's output
unchanged. -/
theorem extractTextFromHtml_noise_discard (pre mid post : List HtmlEvent) (t s : String)
    (ht : jsToLower t ∈ tagsToSkip)
    (hmid : ∀ e ∈ mid, isNoiseClose e = false) :
    extractTextFromHtml
        (pre ++ HtmlEvent.openTag t :: (mid ++ HtmlEvent.textEv s :: post)) =
      extractTextFromHtml (pre ++ HtmlEvent.openTag t :: (mid ++ post)) := by
  unfold extractTextFromHtml
  have hfold :
      (pre ++ HtmlEvent.openTag t :: (mid ++ HtmlEvent.textEv s :: post)).foldl onHtmlEvent
          ⟨[], "", false, ""⟩ =
        (pre ++ HtmlEvent.openTag t :: (mid ++ post)).foldl onHtmlEvent ⟨[], "", false, ""⟩ := by
    rw [List.foldl_append, List.foldl_append, List.foldl_cons, List.foldl_cons,
      List.foldl_append, List.foldl_append, List.foldl_cons]
    have hopen :
        (onHtmlEvent (pre.foldl onHtmlEvent ⟨[], "", false, ""⟩)
          (HtmlEvent.openTag t)).skipContent = true := by
      simp [onHtmlEvent, ht]
    have hskip :
        (mid.foldl onHtmlEvent
          (onHtmlEvent (pre.foldl onHtmlEvent ⟨[], "", false, ""⟩)
            (HtmlEvent.openTag t))).skipContent = true :=
      foldl_skip_preserved mid _ hopen hmid
    rw [onHtmlEvent_text_skipped _ s hskip]
  rw [hfold]

/-- Witness for C5 (amended): text inside a `nav` region with no intervening
noise close contributes nothing — removing it leaves the output unchanged
(and the output is empty). -/
theorem extractTextFromHtml_noise_discard_witness :
    extractTextFromHtml
        [HtmlEvent.openTag "nav", HtmlEvent.openTag "p",
         HtmlEvent.textEv "some long hidden text", HtmlEvent.closeTag "p",
         HtmlEvent.closeTag "nav"] =
      extractTextFromHtml
        [HtmlEvent.openTag "nav", HtmlEvent.openTag "p",
         HtmlEvent.closeTag "p", HtmlEvent.closeTag "nav"]
    ∧ extractTextFromHtml
        [HtmlEvent.openTag "nav", HtmlEvent.openTag "p",
         HtmlEvent.textEv "some long hidden text", HtmlEvent.closeTag "p",
         HtmlEvent.closeTag "nav"] = "" :=
  ⟨extractTextFromHtml_noise_discard [] [HtmlEvent.openTag "p"]
      [HtmlEvent.closeTag "p", HtmlEvent.closeTag "nav"] "nav" "some long hidden text"
      (by decide) (by decide),
   by decide⟩

/-! ## Lemmas about `cosineSimilarity` -/

theorem normSq_go (v : List ℚ) (init : ℚ) :
    v.foldl (fun acc x => acc + x * x) init = init + normSq v := by
  induction v generalizing init with
  | nil => simp [normSq]
  | cons x xs ih =>
      simp only [normSq, List.foldl_cons, zero_add]
      rw [ih (init + x * x), ih (x * x)]
      ring

theorem normSq_cons (x : ℚ) (v : List ℚ) : normSq (x :: v) = x * x + normSq v := by
  simp only [normSq, List.foldl_cons, zero_add]
  exact normSq_go v (x * x)

theorem dotProd_go (a b : List ℚ) (init : ℚ) :
    (a.zip b).foldl (fun acc p => acc + p.1 * p.2) init = init + dotProd a b := by
  induction a generalizing b init with
  | nil => simp [dotProd]
  | cons x xs ih =>
      cases b with
      | nil => simp [dotProd]
      | cons y ys =>
          simp only [dotProd, List.zip_cons_cons, List.foldl_cons, zero_add]
          rw [ih ys (init + x * y), ih ys (x * y)]
          ring

theorem dotProd_cons (x y : ℚ) (a b : List ℚ) :
    dotProd (x :: a) (y :: b) = x * y + dotProd a b := by
  simp only [dotProd, List.zip_cons_cons, List.foldl_cons, zero_add]
  exact dotProd_go a b (x * y)

theorem dotProd_comm (a b : List ℚ) : dotProd a b = dotProd b a := by
  induction a generalizing b with
  | nil => cases b <;> simp [dotProd]
  | cons x xs ih =>
      cases b with
      | nil => simp [dotProd]
      | cons y ys => rw [dotProd_cons, dotProd_cons, ih ys, mul_comm]

theorem dotProd_self (v : List ℚ) : dotProd v v = normSq v := by
  induction v with
  | nil => simp [dotProd, normSq]
  | cons x xs ih => rw [dotProd_cons, normSq_cons, ih]

theorem normSq_nonneg (v : List ℚ) : 0 ≤ normSq v := by
  induction v with
  | nil => simp [normSq]
  | cons x xs ih =>
      rw [normSq_cons]
      have := mul_self_nonneg x
      linarith

theorem normSq_eq_zero_iff (v : List ℚ) : normSq v = 0 ↔ ∀ x ∈ v, x = 0 := by
  induction v with
  | nil => simp [normSq]
  | cons x xs ih =>
      rw [normSq_cons]
      constructor
      · intro h
        have hx : 0 ≤ x * x := mul_self_nonneg x
        have hxs : 0 ≤ normSq xs := normSq_nonneg xs
        have h1 : x * x = 0 := by linarith
        have h2 : normSq xs = 0 := by linarith
        intro y hy
        rcases List.mem_cons.1 hy with rfl | hy
        · exact mul_self_eq_zero.1 h1
        · exact (ih.1 h2) y hy
      · intro h
        have hx : x = 0 := h x (List.mem_cons_self x xs)
        have hxs : normSq xs = 0 := ih.2 fun y hy => h y (List.mem_cons_of_mem x hy)
        rw [hx, hxs]
        ring

/-- C7: `cosineSimilarity(a,b)` equals `dot(a,b)/(‖a‖·‖b‖)`; it is
commutative; it returns exactly 0 (without raising) whenever either vector
has zero (squared) norm; it raises a dimension-mismatch error if and only if
the two vectors differ in length; and for every nonzero `v` (with the
defining property of the `Math.sqrt` oracle at `normSq v`),
`cosineSimilarity(v,v) = 1`. -/
theorem cosineSimilarity_spec (ratSqrt : ℚ → ℚ) (a b : List ℚ) :
    cosineSimilarity ratSqrt a b = cosineSimilarity ratSqrt b a
    ∧ (a.length = b.length → normSq a ≠ 0 → normSq b ≠ 0 →
        cosineSimilarity ratSqrt a b =
          Except.ok (dotProd a b / (ratSqrt (normSq a) * ratSqrt (normSq b))))
    ∧ (a.length = b.length → (normSq a = 0 ∨ normSq b = 0) →
        cosineSimilarity ratSqrt a b = Except.ok 0)
    ∧ ((∃ e, cosineSimilarity ratSqrt a b = Except.error e) ↔ a.length ≠ b.length)
    ∧ (∀ v : List ℚ, (∃ x ∈ v, x ≠ 0) →
        ratSqrt (normSq v) * ratSqrt (normSq v) = normSq v →
        cosineSimilarity ratSqrt v v = Except.ok 1) := by
  refine ⟨?_, ?_, ?_, ?_, ?_⟩
  · unfold cosineSimilarity
    by_cases h : a.length = b.length
    · rw [if_neg (not_not_intro h), if_neg (not_not_intro h.symm)]
      by_cases h0 : normSq a = 0 ∨ normSq b = 0
      · rw [if_pos h0, if_pos (or_comm.1 h0)]
      · rw [if_neg h0, if_neg (fun hc => h0 (or_comm.1 hc))]
        exact congrArg Except.ok (by rw [dotProd_comm, mul_comm])
    · rw [if_pos h, if_pos (fun hc => h hc.symm)]
  · intro h h1 h2
    unfold cosineSimilarity
    rw [if_neg (not_not_intro h), if_neg (by tauto)]
  · intro h h0
    unfold cosineSimilarity
    rw [if_neg (not_not_intro h), if_pos h0]
  · constructor
    · rintro ⟨e, he⟩
      by_contra h
      unfold cosineSimilarity at he
      rw [if_neg (not_not_intro h)] at he
      by_cases h0 : normSq a = 0 ∨ normSq b = 0
      · rw [if_pos h0] at he
        exact Except.noConfusion he
      · rw [if_neg h0] at he
        exact Except.noConfusion he
    · intro h
      exact ⟨_, by unfold cosineSimilarity; rw [if_pos h]⟩
  · intro v hv hsq
    have h0 : normSq v ≠ 0 := by
      rw [ne_eq, normSq_eq_zero_iff]
      rcases hv with ⟨x, hx, hx0⟩
      exact fun hall => hx0 (hall x hx)
    have h0' : ¬(normSq v = 0 ∨ normSq v = 0) := by tauto
    unfold cosineSimilarity
    rw [if_neg (not_not_intro rfl), if_neg h0', dotProd_self, hsq, div_self h0]

/-- Witness for C7 at concrete inputs: `a = [1, 2]`, `b = [2, 1]` (equal
lengths, nonzero norms), the zero vector, a genuine length mismatch, and
`v = [3, 4]` with `ratSqrt` returning 5 at `normSq v = 25`. -/
theorem cosineSimilarity_spec_witness :
    cosineSimilarity (fun _ => 5) [1, 2] [2, 1] = cosineSimilarity (fun _ => 5) [2, 1] [1, 2]
    ∧ cosineSimilarity (fun _ => 5) [1, 2] [2, 1] = Except.ok (dotProd [1, 2] [2, 1] / (5 * 5))
    ∧ cosineSimilarity (fun _ => 5) [0, 0] [1, 2] = Except.ok 0
    ∧ cosineSimilarity (fun _ => 5) [1] [1, 2] = Except.error "Vectors must have the same length"
    ∧ cosineSimilarity (fun _ => 5) [3, 4] [3, 4] = Except.ok 1 := by
  refine ⟨(cosineSimilarity_spec (fun _ => 5) [1, 2] [2, 1]).1,
    ?_, ?_, ?_, ?_⟩
  · exact (cosineSimilarity_spec (fun _ => 5) [1, 2] [2, 1]).2.1 (by decide)
      (by decide) (by decide)
  · exact (cosineSimilarity_spec (fun _ => 5) [0, 0] [1, 2]).2.2.1 (by decide)
      (Or.inl (by decide))
  · decide
  · exact (cosineSimilarity_spec (fun _ => 5) [] []).2.2.2.2 [3, 4]
      ⟨3, by decide, by decide⟩ (by decide)

/-! ## Lemmas about `searchDocuments` -/

theorem scoreAgainstStore_mem (ratSqrt : ℚ → ℚ) (qe : List ℚ) :
    ∀ (ds : List RagDocument) (es : List (List ℚ)) (scored : List ScoredDocument),
      scoreAgainstStore ratSqrt qe ds es = Except.ok scored →
      ∀ r ∈ scored, ∃ i e, ds.get? i = some r.doc ∧ es.get? i = some e ∧
        cosineSimilarity ratSqrt qe e = Except.ok r.score := by
  intro ds
  induction ds with
  | nil =>
      intro es scored h r hr
      simp only [scoreAgainstStore] at h
      cases h
      exact absurd hr (List.not_mem_nil r)
  | cons d ds ih =>
      intro es scored
      cases es with
      | nil => intro h; exact Except.noConfusion h
      | cons e es =>
          show (match cosineSimilarity ratSqrt qe e with
            | Except.error err => Except.error err
            | Except.ok s =>
                match scoreAgainstStore ratSqrt qe ds es with
                | Except.error err => Except.error err
                | Except.ok rest => Except.ok (⟨d, s⟩ :: rest)) = Except.ok scored → _
          cases hc : cosineSimilarity ratSqrt qe e with
          | error err => intro h; exact Except.noConfusion h
          | ok s =>
              cases hrest : scoreAgainstStore ratSqrt qe ds es with
              | error err => intro h; exact Except.noConfusion h
              | ok rest =>
                  intro h r hr
                  injection h with h
                  subst h
                  rcases List.mem_cons.1 hr with rfl | hr
                  · exact ⟨0, e, rfl, rfl, hc⟩
                  · rcases ih es rest hrest r hr with ⟨i, e', h1, h2, h3⟩
                    exact ⟨i + 1, e', h1, h2, h3⟩

/-- C2: `search(query, topK)` on an uninitialized or empty store returns an
empty result without raising; whenever it returns results, there are at most
`topK` of them, they are sorted descending by cosine-similarity score
against the stored embeddings, and every returned score is strictly greater
than `0.3`. -/
theorem searchDocuments_spec (ratSqrt : ℚ → ℚ) (embedQuery : Except String (List ℚ))
    (store : VectorStore) (topK : Nat) :
    ((store.initialized = false ∨ store.documents = []) →
      searchDocuments ratSqrt embedQuery store topK = Except.ok [])
    ∧ (∀ results, searchDocuments ratSqrt embedQuery store topK = Except.ok results →
        results.length ≤ topK
        ∧ List.Sorted scoreDesc results
        ∧ (∀ r ∈ results, (3 : ℚ)/10 < r.score
            ∧ ∃ qe i e, embedQuery = Except.ok qe
                ∧ store.documents.get? i = some r.doc
                ∧ store.embeddings.get? i = some e
                ∧ cosineSimilarity ratSqrt qe e = Except.ok r.score)) := by
  constructor
  · intro h
    unfold searchDocuments
    rcases h with h | h
    · rw [if_pos (by simp [h])]
    · rw [if_pos (by simp [h])]
  · intro results
    unfold searchDocuments
    by_cases hempty : (!store.initialized || store.documents.length == 0) = true
    · rw [if_pos hempty]
      intro h
      cases h
      refine ⟨Nat.zero_le _, List.sorted_nil, fun r hr => absurd hr (List.not_mem_nil r)⟩
    · rw [if_neg hempty]
      cases hq : embedQuery with
      | error e => intro h; exact Except.noConfusion h
      | ok qe =>
          show (match scoreAgainstStore ratSqrt qe store.documents store.embeddings with
            | Except.error e => Except.error e
            | Except.ok scored =>
                Except.ok ((((scored.insertionSort scoreDesc).take topK).filter
                  (fun d => decide ((3 : ℚ)/10 < d.score))))) = Except.ok results → _
          cases hs : scoreAgainstStore ratSqrt qe store.documents store.embeddings with
          | error e => intro h; exact Except.noConfusion h
          | ok scored =>
              intro h
              injection h with h
              subst h
              refine ⟨?_, ?_, ?_⟩
              · calc (((scored.insertionSort scoreDesc).take topK).filter
                      (fun d => decide ((3 : ℚ)/10 < d.score))).length
                    ≤ ((scored.insertionSort scoreDesc).take topK).length :=
                      List.length_filter_le _ _
                  _ ≤ topK := by
                      rw [List.length_take]
                      exact min_le_left _ _
              · exact ((List.sorted_insertionSort scoreDesc scored).sublist
                  (List.take_sublist _ _)).filter _
              · intro r hr
                have hscore := (List.mem_filter.1 hr).2
                refine ⟨by simpa using hscore, ?_⟩
                have hmem : r ∈ scored := by
                  have h1 : r ∈ (scored.insertionSort scoreDesc).take topK :=
                    (List.mem_filter.1 hr).1
                  have h2 : r ∈ scored.insertionSort scoreDesc :=
                    (List.take_sublist _ _).mem h1
                  exact (List.perm_insertionSort scoreDesc scored).mem_iff.1 h2
                rcases scoreAgainstStore_mem ratSqrt qe store.documents store.embeddings
                  scored hs r hmem with ⟨i, e, h1, h2, h3⟩
                exact ⟨qe, i, e, rfl, h1, h2, h3⟩

/-- Witness for C2: an uninitialized store yields `ok []`; a one-document
store with a matching embedding yields one result with score 1, sorted, of
length at most `topK`, and above the relevance floor. -/
theorem searchDocuments_spec_witness :
    searchDocuments (fun _ => 1) (Except.ok [1, 0])
        ⟨[], [], false, none⟩ 5 = Except.ok []
    ∧ searchDocuments (fun _ => 1) (Except.ok [1, 0])
        ⟨[⟨"Home-0", "some chunk", ⟨"Home", "u", "t"⟩⟩], [[1, 0]], true, some "t"⟩ 5 =
        Except.ok [⟨⟨"Home-0", "some chunk", ⟨"Home", "u", "t"⟩⟩, 1⟩]
    ∧ ([(⟨⟨"Home-0", "some chunk", ⟨"Home", "u", "t"⟩⟩, 1⟩ : ScoredDocument)]).length ≤ 5
    ∧ List.Sorted scoreDesc [⟨⟨"Home-0", "some chunk", ⟨"Home", "u", "t"⟩⟩, 1⟩]
    ∧ (3 : ℚ)/10 < (1 : ℚ) := by
  refine ⟨(searchDocuments_spec (fun _ => 1) (Except.ok [1, 0])
      ⟨[], [], false, none⟩ 5).1 (Or.inl rfl),
    by decide,
    ((searchDocuments_spec (fun _ => 1) (Except.ok [1, 0])
      ⟨[⟨"Home-0", "some chunk", ⟨"Home", "u", "t"⟩⟩], [[1, 0]], true, some "t"⟩ 5).2
      [⟨⟨"Home-0", "some chunk", ⟨"Home", "u", "t"⟩⟩, 1⟩] (by decide)).1,
    ((searchDocuments_spec (fun _ => 1) (Except.ok [1, 0])
      ⟨[⟨"Home-0", "some chunk", ⟨"Home", "u", "t"⟩⟩], [[1, 0]], true, some "t"⟩ 5).2
      [⟨⟨"Home-0", "some chunk", ⟨"Home", "u", "t"⟩⟩, 1⟩] (by decide)).2.1,
    (((searchDocuments_spec (fun _ => 1) (Except.ok [1, 0])
      ⟨[⟨"Home-0", "some chunk", ⟨"Home", "u", "t"⟩⟩], [[1, 0]], true, some "t"⟩ 5).2
      [⟨⟨"Home-0", "some chunk", ⟨"Home", "u", "t"⟩⟩, 1⟩] (by decide)).2.2
      ⟨⟨"Home-0", "some chunk", ⟨"Home", "u", "t"⟩⟩, 1⟩ (List.mem_singleton.2 rfl)).1⟩

/-! ## Lemmas about the similarity matcher -/

/-- A five-entry stand-in for the external QA catalog
(`predefinedResponses.questions`), used to exercise the matcher and router
theorems on concrete runs. -/
def exampleCatalog : List QA :=
  [⟨"eligibility verification agent", "EVA automates eligibility verification"⟩,
   ⟨"claims processing agent", "CAM handles claims"⟩,
   ⟨"payment posting agent", "PHIL posts payments"⟩,
   ⟨"thoughtful agents overview", "Thoughtful AI offers many agents"⟩,
   ⟨"benefits of agents", "They reduce cost and improve efficiency"⟩]

theorem dedupFirst_nodup (l : List String) :
    ∀ seen : List String,
      (dedupFirst seen l).Nodup ∧ ∀ w ∈ dedupFirst seen l, w ∉ seen := by
  induction l with
  | nil => intro seen; exact ⟨List.nodup_nil, fun w hw => absurd hw (List.not_mem_nil w)⟩
  | cons x xs ih =>
      intro seen
      unfold dedupFirst
      by_cases h : x ∈ seen
      · rw [if_pos h]
        exact ih seen
      · rw [if_neg h]
        rcases ih (x :: seen) with ⟨hnd, hnotin⟩
        constructor
        · refine List.nodup_cons.2 ⟨fun hx => ?_, hnd⟩
          exact hnotin x hx (List.mem_cons_self x seen)
        · intro w hw
          rcases List.mem_cons.1 hw with rfl | hw
          · exact h
          · exact fun hws => hnotin w hw (List.mem_cons_of_mem x hws)

theorem normalizeWords_nodup (s : String) : (normalizeWords s).Nodup :=
  (dedupFirst_nodup _ []).1

theorem calculateSimilarity_le_one (str1 str2 : String) :
    calculateSimilarity str1 str2 ≤ 1 := by
  unfold calculateSimilarity
  by_cases h : (normalizeWords str1).length = 0 ∨ (normalizeWords str2).length = 0
  · rw [if_pos h]; norm_num
  · rw [if_neg h]
    push_neg at h
    set w1 := normalizeWords str1 with hw1
    set w2 := normalizeWords str2 with hw2
    set i := (w1.filter fun w => w ∈ w2).length with hi
    have hi1 : i ≤ w1.length := List.length_filter_le _ _
    have hi2 : i ≤ w2.length := by
      refine List.Subperm.length_le (List.Nodup.subperm ?_ ?_)
      · exact (normalizeWords_nodup str1).filter _
      · intro w hw
        have := List.mem_filter.1 hw
        exact of_decide_eq_true this.2
    have hu : 0 < w1.length + w2.length - i := by omega
    have hiu : i ≤ w1.length + w2.length - i := by omega
    rw [div_le_one (by exact_mod_cast hu)]
    exact_mod_cast hiu

theorem calculateSimilarity_nonneg (str1 str2 : String) :
    0 ≤ calculateSimilarity str1 str2 := by
  unfold calculateSimilarity
  by_cases h : (normalizeWords str1).length = 0 ∨ (normalizeWords str2).length = 0
  · rw [if_pos h]
  · rw [if_neg h]
    positivity

/-- The state invariant of both `findBestMatch` passes: any recorded best
match is copied from a single catalog entry, its stored confidence is the
running highest score, and the running score never exceeds 1. -/
def matcherInv (catalog : List QA) (best : Option MatchResult) (highestScore : ℚ) : Prop :=
  (∀ m, best = some m →
    m.confidence = highestScore
    ∧ ∃ qa ∈ catalog, m.matchedQuestion = qa.question ∧ m.answer = qa.answer)
  ∧ highestScore ≤ 1

theorem keywordPassLoop_inv (catalog : List QA) (userQuery lowerQuery : String) :
    ∀ (kws : List (String × Nat)) (best : Option MatchResult) (hs : ℚ)
      (b' : Option MatchResult) (s' : ℚ),
      matcherInv catalog best hs →
      keywordPassLoop catalog userQuery lowerQuery kws best hs = Except.ok (b', s') →
      matcherInv catalog b' s' := by
  intro kws
  induction kws with
  | nil =>
      intro best hs b' s' hinv h
      unfold keywordPassLoop at h
      injection h with h
      injection h with h1 h2
      subst h1; subst h2
      exact hinv
  | cons kv rest ih =>
      intro best hs b' s' hinv
      unfold keywordPassLoop
      by_cases hsub : kv.1.data <:+: lowerQuery.data
      · rw [if_pos hsub]
        cases hg : catalog.get? kv.2 with
        | none => intro h; exact Except.noConfusion h
        | some question =>
            show (if hs < calculateSimilarity userQuery question.question then
                keywordPassLoop catalog userQuery lowerQuery rest
                  (some ⟨question.answer, question.question,
                    max (calculateSimilarity userQuery question.question) (1/2)⟩)
                  (max (calculateSimilarity userQuery question.question) (1/2))
              else keywordPassLoop catalog userQuery lowerQuery rest best hs) =
                Except.ok (b', s') → matcherInv catalog b' s'
            by_cases himp : hs < calculateSimilarity userQuery question.question
            · rw [if_pos himp]
              refine ih _ _ _ _ ?_
              constructor
              · intro m hm
                injection hm with hm
                subst hm
                exact ⟨rfl, question, List.get?_mem hg, rfl, rfl⟩
              · exact max_le (calculateSimilarity_le_one _ _) (by norm_num)
            · rw [if_neg himp]
              exact ih _ _ _ _ hinv
      · rw [if_neg hsub]
        exact ih _ _ _ _ hinv

theorem fullScanLoop_inv (userQuery : String) :
    ∀ (cat rest : List QA) (best : Option MatchResult) (hs : ℚ),
      (∀ qa ∈ rest, qa ∈ cat) →
      matcherInv cat best hs →
      matcherInv cat (fullScanLoop userQuery rest best hs).1
        (fullScanLoop userQuery rest best hs).2 := by
  intro cat rest
  induction rest with
  | nil => intro best hs _ hinv; exact hinv
  | cons qa rest ih =>
      intro best hs hsub hinv
      unfold fullScanLoop
      by_cases himp : hs < calculateSimilarity userQuery qa.question
      · rw [if_pos himp]
        refine ih _ _ (fun x hx => hsub x (List.mem_cons_of_mem qa hx)) ?_
        constructor
        · intro m hm
          injection hm with hm
          subst hm
          exact ⟨rfl, qa, hsub qa (List.mem_cons_self qa rest), rfl, rfl⟩
        · exact calculateSimilarity_le_one _ _
      · rw [if_neg himp]
        exact ih _ _ (fun x hx => hsub x (List.mem_cons_of_mem qa hx)) hinv

/-- C10: any non-null `findBestMatch` result copies `matchedQuestion` and
`answer` from one and the same catalog entry, and its confidence lies in
`[0.3, 1]`. -/
theorem findBestMatch_result_sound (catalog : List QA) (userQuery : String)
    (m : MatchResult)
    (h : findBestMatch catalog userQuery = Except.ok (some m)) :
    (∃ qa ∈ catalog, m.matchedQuestion = qa.question ∧ m.answer = qa.answer)
    ∧ similarityThreshold ≤ m.confidence ∧ m.confidence ≤ 1 := by
  unfold findBestMatch at h
  revert h
  cases hk : keywordPassLoop catalog userQuery (jsToLower userQuery) keywords none 0 with
  | error e => intro h; exact Except.noConfusion h
  | ok p =>
      obtain ⟨b1, s1⟩ := p
      have hinv1 : matcherInv catalog b1 s1 :=
        keywordPassLoop_inv catalog userQuery (jsToLower userQuery) keywords none 0 b1 s1
          ⟨fun m hm => Option.noConfusion hm, by norm_num⟩ hk
      have hinv2 : matcherInv catalog
          (fullScanLoop userQuery catalog b1 s1).1 (fullScanLoop userQuery catalog b1 s1).2 :=
        fullScanLoop_inv userQuery catalog catalog b1 s1 (fun qa hqa => hqa) hinv1
      show (if similarityThreshold ≤ (fullScanLoop userQuery catalog b1 s1).2 then
          Except.ok (fullScanLoop userQuery catalog b1 s1).1 else Except.ok none) =
        Except.ok (some m) → _
      rcases hfs : fullScanLoop userQuery catalog b1 s1 with ⟨b2, s2⟩
      rw [hfs] at hinv2
      by_cases hth : similarityThreshold ≤ s2
      · rw [if_pos hth]
        intro h
        injection h with h
        subst h
        rcases hinv2.1 m rfl with ⟨hconf, qa, hqa, h1, h2⟩
        exact ⟨⟨qa, hqa, h1, h2⟩, hconf ▸ hth, hconf ▸ hinv2.2⟩
      · rw [if_neg hth]
        intro h
        injection h with h
        exact Option.noConfusion h

/-- Witness for C10: a concrete catalog and query whose match is the second
catalog entry with confidence 1. -/
theorem findBestMatch_result_sound_witness :
    findBestMatch exampleCatalog "claims processing agent" =
      Except.ok (some ⟨"CAM handles claims", "claims processing agent", 1⟩)
    ∧ (⟨"claims processing agent", "CAM handles claims"⟩ : QA) ∈ exampleCatalog
    ∧ similarityThreshold ≤ (1 : ℚ) ∧ (1 : ℚ) ≤ 1 := by
  have h : findBestMatch exampleCatalog "claims processing agent" =
      Except.ok (some ⟨"CAM handles claims", "claims processing agent", 1⟩) := by decide
  have hs := findBestMatch_result_sound exampleCatalog "claims processing agent"
    ⟨"CAM handles claims", "claims processing agent", 1⟩ h
  exact ⟨h, by decide, hs.2.1, hs.2.2⟩

/-- One step of the specification's pass 1: test the keyword for substring
membership in the lowercased query, and on a strict improvement record the
mapped catalog entry with the `max(similarity, 0.5)` floor boost. -/
def keywordFoldStep (catalog : List QA) (userQuery lowerQuery : String)
    (b : Option MatchResult × ℚ) (kv : String × Nat) : Option MatchResult × ℚ :=
  if kv.1.data <:+: lowerQuery.data then
    if b.2 < calculateSimilarity userQuery (catalog.getD kv.2 ⟨"", ""⟩).question then
      (some ⟨(catalog.getD kv.2 ⟨"", ""⟩).answer, (catalog.getD kv.2 ⟨"", ""⟩).question,
        max (calculateSimilarity userQuery (catalog.getD kv.2 ⟨"", ""⟩).question) (1/2)⟩,
       max (calculateSimilarity userQuery (catalog.getD kv.2 ⟨"", ""⟩).question) (1/2))
    else b
  else b

/-- One step of the specification's pass 2: on a strict improvement,
overwrite the best with the unboosted similarity. -/
def fullScanFoldStep (userQuery : String) (b : Option MatchResult × ℚ) (qa : QA) :
    Option MatchResult × ℚ :=
  if b.2 < calculateSimilarity userQuery qa.question then
    (some ⟨qa.answer, qa.question, calculateSimilarity userQuery qa.question⟩,
     calculateSimilarity userQuery qa.question)
  else b

/-- The two-pass best-match computation exactly as the specification words
it (the spec-side definition for the refinement claim C4): a running best
initialized to none/0; pass 1 folds the static keyword table, testing each
keyword for substring membership in the lowercased query and recording a
strictly improving Jaccard score with the `max(similarity, 0.5)` floor
boost; pass 2 folds the whole catalog with unboosted scores, able to
override pass 1; the best is returned only if the final score is at least
0.3. -/
def findBestMatchSpec (catalog : List QA) (userQuery : String) : Option MatchResult :=
  let lowerQuery := jsToLower userQuery
  let pass1 := keywords.foldl (keywordFoldStep catalog userQuery lowerQuery) (none, 0)
  let pass2 := catalog.foldl (fullScanFoldStep userQuery) pass1
  if similarityThreshold ≤ pass2.2 then pass2.1 else none

theorem keywordPassLoop_eq_foldl (catalog : List QA) (userQuery lowerQuery : String) :
    ∀ (kws : List (String × Nat)) (best : Option MatchResult) (hs : ℚ),
      (∀ kv ∈ kws, kv.2 < catalog.length) →
      keywordPassLoop catalog userQuery lowerQuery kws best hs =
        Except.ok (kws.foldl (keywordFoldStep catalog userQuery lowerQuery) (best, hs)) := by
  intro kws
  induction kws with
  | nil => intro best hs _; rfl
  | cons kv rest ih =>
      intro best hs hidx
      unfold keywordPassLoop
      rw [List.foldl_cons]
      by_cases hsub : kv.1.data <:+: lowerQuery.data
      · rw [if_pos hsub]
        have hlt : kv.2 < catalog.length := hidx kv (List.mem_cons_self kv rest)
        cases hg : catalog.get? kv.2 with
        | none => exact absurd (List.get?_eq_none.1 hg) (not_le.2 hlt)
        | some question =>
            have hgd : catalog.getD kv.2 ⟨"", ""⟩ = question := by
              rw [List.getD_eq_get?, hg]
              rfl
            by_cases himp : hs < calculateSimilarity userQuery question.question
            · have hstep : keywordFoldStep catalog userQuery lowerQuery (best, hs) kv =
                  (some ⟨question.answer, question.question,
                    max (calculateSimilarity userQuery question.question) (1/2)⟩,
                   max (calculateSimilarity userQuery question.question) (1/2)) := by
                unfold keywordFoldStep
                rw [if_pos hsub, hgd, if_pos himp]
              rw [hstep]
              show (if hs < calculateSimilarity userQuery question.question then
                  keywordPassLoop catalog userQuery lowerQuery rest
                    (some ⟨question.answer, question.question,
                      max (calculateSimilarity userQuery question.question) (1/2)⟩)
                    (max (calculateSimilarity userQuery question.question) (1/2))
                else keywordPassLoop catalog userQuery lowerQuery rest best hs) = _
              rw [if_pos himp]
              exact ih _ _ fun x hx => hidx x (List.mem_cons_of_mem kv hx)
            · have hstep : keywordFoldStep catalog userQuery lowerQuery (best, hs) kv =
                  (best, hs) := by
                unfold keywordFoldStep
                rw [if_pos hsub, hgd, if_neg himp]
              rw [hstep]
              show (if hs < calculateSimilarity userQuery question.question then
                  keywordPassLoop catalog userQuery lowerQuery rest
                    (some ⟨question.answer, question.question,
                      max (calculateSimilarity userQuery question.question) (1/2)⟩)
                    (max (calculateSimilarity userQuery question.question) (1/2))
                else keywordPassLoop catalog userQuery lowerQuery rest best hs) = _
              rw [if_neg himp]
              exact ih _ _ fun x hx => hidx x (List.mem_cons_of_mem kv hx)
      · have hstep : keywordFoldStep catalog userQuery lowerQuery (best, hs) kv =
            (best, hs) := by
          unfold keywordFoldStep
          rw [if_neg hsub]
        rw [if_neg hsub, hstep]
        exact ih _ _ fun x hx => hidx x (List.mem_cons_of_mem kv hx)

theorem fullScanLoop_eq_foldl (userQuery : String) :
    ∀ (cat : List QA) (p : Option MatchResult × ℚ),
      fullScanLoop userQuery cat p.1 p.2 =
        cat.foldl (fullScanFoldStep userQuery) p := by
  intro cat
  induction cat with
  | nil => intro p; rfl
  | cons qa rest ih =>
      rintro ⟨best, hs⟩
      show fullScanLoop userQuery (qa :: rest) best hs = _
      unfold fullScanLoop
      rw [List.foldl_cons]
      by_cases himp : hs < calculateSimilarity userQuery qa.question
      · have hstep : fullScanFoldStep userQuery (best, hs) qa =
            (some ⟨qa.answer, qa.question, calculateSimilarity userQuery qa.question⟩,
             calculateSimilarity userQuery qa.question) := by
          unfold fullScanFoldStep
          rw [if_pos himp]
        rw [if_pos himp, hstep]
        exact ih (some ⟨qa.answer, qa.question, calculateSimilarity userQuery qa.question⟩,
          calculateSimilarity userQuery qa.question)
      · have hstep : fullScanFoldStep userQuery (best, hs) qa = (best, hs) := by
          unfold fullScanFoldStep
          rw [if_neg himp]
        rw [if_neg himp, hstep]
        exact ih (best, hs)

/-- C4: on any catalog with at least 5 entries (so that every keyword-table
index is valid), `findBestMatch` computes exactly the two-pass
keyword-boost / full-scan / threshold procedure described by the
specification. -/
theorem findBestMatch_eq_spec (catalog : List QA) (h5 : 5 ≤ catalog.length)
    (userQuery : String) :
    findBestMatch catalog userQuery = Except.ok (findBestMatchSpec catalog userQuery) := by
  have hidx : ∀ kv ∈ keywords, kv.2 < catalog.length := by
    intro kv hkv
    have h4 : kv.2 ≤ 4 := by
      have hall : ∀ kv ∈ keywords, kv.2 ≤ 4 := by decide
      exact hall kv hkv
    omega
  unfold findBestMatch findBestMatchSpec
  rw [keywordPassLoop_eq_foldl catalog userQuery (jsToLower userQuery) keywords none 0 hidx]
  show (if similarityThreshold ≤ (fullScanLoop userQuery catalog
        (keywords.foldl (keywordFoldStep catalog userQuery (jsToLower userQuery)) (none, 0)).1
        (keywords.foldl (keywordFoldStep catalog userQuery (jsToLower userQuery)) (none, 0)).2).2
      then Except.ok (fullScanLoop userQuery catalog
        (keywords.foldl (keywordFoldStep catalog userQuery (jsToLower userQuery)) (none, 0)).1
        (keywords.foldl (keywordFoldStep catalog userQuery (jsToLower userQuery)) (none, 0)).2).1
      else Except.ok none) = _
  rw [fullScanLoop_eq_foldl userQuery catalog
    (keywords.foldl (keywordFoldStep catalog userQuery (jsToLower userQuery)) (none, 0))]
  by_cases hth : similarityThreshold ≤ (catalog.foldl (fullScanFoldStep userQuery)
      (keywords.foldl (keywordFoldStep catalog userQuery (jsToLower userQuery)) (none, 0))).2
  · rw [if_pos hth, if_pos hth]
  · rw [if_neg hth, if_neg hth]

/-- Witness for C4 at a concrete 5-entry catalog and query. -/
theorem findBestMatch_eq_spec_witness :
    5 ≤ exampleCatalog.length
    ∧ findBestMatch exampleCatalog "what about payment posting" =
        Except.ok (findBestMatchSpec exampleCatalog "what about payment posting")
    ∧ findBestMatch exampleCatalog "what about payment posting" =
        Except.ok (some ⟨"PHIL posts payments", "payment posting agent", 1/2⟩) :=
  ⟨by decide,
   findBestMatch_eq_spec exampleCatalog (by decide) "what about payment posting",
   by decide⟩

/-! ## The response-router theorems -/

/-- C3: whenever `findBestMatch` yields a match with confidence strictly
above 0.6, `getAgentResponse` returns that match as a predefined-source
response; the conclusion holds for every retrieval oracle and every
completion oracle, so the result does not depend on those collaborators and
neither is invoked. -/
theorem getAgentResponse_predefined_shortcircuit
    (catalog : List QA) (isInit : Bool)
    (getRelevantContext : String → Except String RagContext)
    (complete : List ChatMessage → Except String String)
    (userQuery : String) (conversationHistory : List ChatMessage)
    (m : MatchResult)
    (hm : findBestMatch catalog userQuery = Except.ok (some m))
    (hconf : (3 : ℚ)/5 < m.confidence) :
    getAgentResponse catalog isInit getRelevantContext complete userQuery conversationHistory =
      Except.ok ⟨m.answer, "predefined", some m.confidence, some m.matchedQuestion, none⟩ := by
  unfold getAgentResponse
  rw [hm]
  show (if (3 : ℚ)/5 < m.confidence then
      Except.ok (⟨m.answer, "predefined", some m.confidence, some m.matchedQuestion, none⟩ :
        AgentResponse)
    else afterPredefinedTier isInit getRelevantContext complete userQuery conversationHistory) = _
  rw [if_pos hconf]

/-- Witness for C3: a query matching the first catalog entry with confidence
1 short-circuits, even when both collaborators are failing oracles. -/
theorem getAgentResponse_predefined_shortcircuit_witness :
    findBestMatch exampleCatalog "eligibility verification agent" =
      Except.ok (some ⟨"EVA automates eligibility verification",
        "eligibility verification agent", 1⟩)
    ∧ (3 : ℚ)/5 < 1
    ∧ getAgentResponse exampleCatalog true (fun _ => Except.error "retrieval down")
        (fun _ => Except.error "completion down") "eligibility verification agent" [] =
      Except.ok ⟨"EVA automates eligibility verification", "predefined", some 1,
        some "eligibility verification agent", none⟩ :=
  ⟨by decide, by decide,
    getAgentResponse_predefined_shortcircuit exampleCatalog true
      (fun _ => Except.error "retrieval down") (fun _ => Except.error "completion down")
      "eligibility verification agent" []
      ⟨"EVA automates eligibility verification", "eligibility verification agent", 1⟩
      (by decide) (by decide)⟩

/-- C8 counterexample: with tier 1 yielding no match, the store initialized,
and the retrieval oracle raising, the router falls through to tier 3 — but
the fallback response carries `source = "openai"`, not `source = "fallback"`
as the claim states; and when tier 3 also fails, the error surfaced is tier
3's own, not the tier-2 error. -/
theorem getAgentResponse_tier2_error_counterexample :
    findBestMatch ([] : List QA) "any question" = Except.ok none
    ∧ getAgentResponse [] true (fun _ => Except.error "tier two error")
        (fun _ => Except.ok "mocked answer") "any question" [] =
        Except.ok ⟨"mocked answer", "openai", none, none, none⟩
    ∧ ("openai" : String) ≠ "fallback"
    ∧ getAgentResponse [] true (fun _ => Except.error "tier two error")
        (fun _ => Except.error "tier three error") "any question" [] =
        Except.error "tier three error"
    ∧ ("tier three error" : String) ≠ "tier two error" := by
  refine ⟨by decide, by decide, by decide, by decide, by decide⟩

/-- C8 (amended): when the query reaches tier 2 (no predefined match above
0.6, knowledge base initialized) and the tier-2 retrieval-plus-completion
attempt raises, the error is not propagated: the router falls through to
tier 3 and returns `{answer, source = "openai", confidence = null,
matchedQuestion = null}`; if tier 3 itself also fails, tier 3's own error is
surfaced. -/
theorem getAgentResponse_tier2_error_demoted
    (catalog : List QA)
    (getRelevantContext : String → Except String RagContext)
    (complete : List ChatMessage → Except String String)
    (userQuery : String) (conversationHistory : List ChatMessage)
    (mo : Option MatchResult) (e : String)
    (hm : findBestMatch catalog userQuery = Except.ok mo)
    (hno : ∀ m, mo = some m → m.confidence ≤ (3 : ℚ)/5)
    (herr : ragTierAttempt getRelevantContext complete userQuery conversationHistory =
      Except.error e) :
    (∀ a, getOpenAIResponse complete userQuery conversationHistory = Except.ok a →
        getAgentResponse catalog true getRelevantContext complete userQuery
          conversationHistory = Except.ok ⟨a, "openai", none, none, none⟩)
    ∧ (∀ e3, getOpenAIResponse complete userQuery conversationHistory = Except.error e3 →
        getAgentResponse catalog true getRelevantContext complete userQuery
          conversationHistory = Except.error e3) := by
  have hafter : getAgentResponse catalog true getRelevantContext complete userQuery
      conversationHistory =
      afterPredefinedTier true getRelevantContext complete userQuery conversationHistory := by
    unfold getAgentResponse
    rw [hm]
    cases mo with
    | none => rfl
    | some m =>
        show (if (3 : ℚ)/5 < m.confidence then _ else afterPredefinedTier true
          getRelevantContext complete userQuery conversationHistory) = _
        rw [if_neg (not_lt.2 (hno m rfl))]
  have hfall : afterPredefinedTier true getRelevantContext complete userQuery
      conversationHistory =
      fallbackResponse complete userQuery conversationHistory := by
    unfold afterPredefinedTier
    rw [if_pos rfl, herr]
  constructor
  · intro a ha
    rw [hafter, hfall]
    unfold fallbackResponse
    rw [ha]
  · intro e3 he3
    rw [hafter, hfall]
    unfold fallbackResponse
    rw [he3]

/-- Witness for C8 (amended) at a concrete catalog, query and oracle set. -/
theorem getAgentResponse_tier2_error_demoted_witness :
    getAgentResponse [] true (fun _ => Except.error "tier two error")
        (fun _ => Except.ok "mocked answer") "any question" [] =
      Except.ok ⟨"mocked answer", "openai", none, none, none⟩ :=
  (getAgentResponse_tier2_error_demoted [] (fun _ => Except.error "tier two error")
      (fun _ => Except.ok "mocked answer") "any question" [] none "tier two error"
      (by decide) (fun m h => Option.noConfusion h) (by decide)).1
    "mocked answer" (by decide)

/-! ## The coordinator theorem -/

/-- C9: concurrent `initialize(true)` calls share one in-flight run.  A
JavaScript async function runs uninterrupted up to its first `await`, so the
synchronous prefixes of the two calls execute in sequence; the first call
installs a fresh promise and starts the single underlying run, the second
call attaches to that same promise (hence resolves to the same result or
error) without starting anything or changing any state, and settling the run
clears the handle so the next call starts fresh. -/
theorem initializeKnowledgeBase_single_flight (st : KbState)
    (h : st.initializationPromise = none) :
    ∃ p, (initCall true st).2 = InitCallOutcome.attached p
    ∧ (initCall true (initCall true st).1).2 = InitCallOutcome.attached p
    ∧ (initCall true (initCall true st).1).1 = (initCall true st).1
    ∧ (initCall true st).1.startedRuns = st.startedRuns + 1
    ∧ (∀ result,
        (settleInitialization result (initCall true st).1).initializationPromise = none) := by
  refine ⟨st.nextPromiseId, ?_, ?_, ?_, ?_, ?_⟩ <;>
    simp [initCall, settleInitialization, h]

/-- Witness for C9 from the fresh coordinator state. -/
theorem initializeKnowledgeBase_single_flight_witness :
    (initCall true ⟨none, none, false, 0, 0⟩).2 = InitCallOutcome.attached 0
    ∧ (initCall true (initCall true ⟨none, none, false, 0, 0⟩).1).2 =
        InitCallOutcome.attached 0
    ∧ (initCall true (initCall true ⟨none, none, false, 0, 0⟩).1).1 =
        (initCall true ⟨none, none, false, 0, 0⟩).1
    ∧ (initCall true ⟨none, none, false, 0, 0⟩).1.startedRuns =
        (⟨none, none, false, 0, 0⟩ : KbState).startedRuns + 1
    ∧ (settleInitialization (Except.ok ())
          (initCall true ⟨none, none, false, 0, 0⟩).1).initializationPromise = none
    ∧ (settleInitialization (Except.error "no content was scraped")
          (initCall true ⟨none, none, false, 0, 0⟩).1).initializationPromise = none := by
  rcases initializeKnowledgeBase_single_flight ⟨none, none, false, 0, 0⟩ rfl with
    ⟨p, h1, h2, h3, h4, h5⟩
  have h0 : (initCall true ⟨none, none, false, 0, 0⟩).2 = InitCallOutcome.attached 0 := by
    decide
  have hp : p = 0 := by
    have := h1.symm.trans h0
    exact InitCallOutcome.attached.inj this
  subst hp
  exact ⟨h1, h2, h3, h4, h5 (Except.ok ()), h5 (Except.error "no content was scraped")⟩
